import Mathlib

/-! YM2149 sound chip emulator.

A shallow embedding of `src/audio/ym2149-emulator.js` (class `YM2149Emulator`):
the register bank, the three tone voices, the noise generator, the envelope
generator and the per-sample gate logic, followed by theorems about them.

Conventions of the embedding:

* `registers` is a `Uint8Array(16)`: sixteen cells holding bytes, modelled as
  `Fin 16 → Fin 256`.
* JavaScript numbers that only count upwards (`counter`, `period`, `lfsr`, ...)
  are `Nat`; numbers that the code subtracts from (`voice.output`,
  `envelope.phase`, `envelope.output`) are `Int`.
* A method that may throw returns the outcome together with the state the
  object is left in.
* `sampleRate`, `clockRate` and the two lookup tables are written once by the
  constructor and never again; they are not part of the mutable state below.
* The number `generateSample()` returns is computed in exact real arithmetic
  (`volumeTable`, `generateSampleValue`), not in rounded floating point; `none`
  stands for `NaN`, which the sum becomes once a table read yields `undefined`.
* The buffer of `processSamples` is any index-assignable buffer
  (`OutputBuffer`): a plain `Array` or a typed array of fixed length, with the
  conversion its element type applies on store.
-/

namespace YM2149

/-! ## Data model -/

/-- One element of `this.voices`. -/
structure Voice where
  counter : Nat
  output : Int
  period : Nat
  volume : Nat
  envEnabled : Bool
  noiseEnabled : Bool
  toneEnabled : Bool
deriving DecidableEq, Repr

/-- The object `this.noise`. -/
structure Noise where
  counter : Nat
  output : Nat
  period : Nat
  lfsr : Nat
deriving DecidableEq, Repr

/-- The object `this.envelope`; the field `continue` of the source is named
`continueFlag` here (`continue` is reserved). -/
structure Envelope where
  counter : Nat
  period : Nat
  shape : Nat
  phase : Int
  output : Int
  holding : Bool
  attack : Bool
  alternate : Bool
  continueFlag : Bool
  hold : Bool
deriving DecidableEq, Repr

/-- The mutable state of a `YM2149Emulator` instance. -/
structure YM2149Emulator where
  registers : Fin 16 → Fin 256
  voices : Fin 3 → Voice
  noise : Noise
  envelope : Envelope

/-! ## Construction and reset -/

/-- The fields as the constructor assigns them, before it calls `reset()`. -/
def constructorFields : YM2149Emulator where
  registers := fun _ => 0
  voices := fun _ =>
    { counter := 0, output := 0, period := 0, volume := 0,
      envEnabled := false, noiseEnabled := false, toneEnabled := true }
  noise := { counter := 0, output := 0, period := 0, lfsr := 1 }
  envelope :=
    { counter := 0, period := 0, shape := 0, phase := 0, output := 15,
      holding := false, attack := false, alternate := false,
      continueFlag := false, hold := false }

/-- Method `reset()`. -/
def reset (s : YM2149Emulator) : YM2149Emulator where
  registers := fun _ => 0
  voices := fun i =>
    { s.voices i with
      counter := 0, output := 0, period := 1, volume := 0,
      envEnabled := false, noiseEnabled := false, toneEnabled := true }
  noise := { s.noise with counter := 0, output := 0, period := 1, lfsr := 1 }
  envelope :=
    { s.envelope with
      counter := 0, period := 1, shape := 0, phase := 0, output := 15,
      holding := false }

/-- The state of `new YM2149Emulator(...)`: the constructor's assignments
followed by its call of `reset()`. -/
def construct : YM2149Emulator := reset constructorFields

/-! ## Register writes -/

/-- The value `value & 0xFF` stored in a `Uint8Array` cell, for an integer
`value`: its residue modulo 256. -/
def toByte (value : Int) : Fin 256 :=
  ⟨(value % 256).toNat, by omega⟩

/-- Tone period of a voice from its two registers:
`Math.max(1, (hi & 0x0F) << 8 | lo)`. -/
def tonePeriod (hi lo : Fin 256) : Nat :=
  max 1 (((hi.val &&& 0x0F) <<< 8) ||| lo.val)

/-- Assignment `this.voices[k].period = p`. -/
def setVoicePeriod (s : YM2149Emulator) (k : Fin 3) (p : Nat) : YM2149Emulator :=
  { s with voices := Function.update s.voices k { s.voices k with period := p } }

/-- Method `updateInternalState(register)`. -/
def updateInternalState (s : YM2149Emulator) (register : Nat) : YM2149Emulator :=
  match register with
  | 0 | 1 => setVoicePeriod s 0 (tonePeriod (s.registers 1) (s.registers 0))
  | 2 | 3 => setVoicePeriod s 1 (tonePeriod (s.registers 3) (s.registers 2))
  | 4 | 5 => setVoicePeriod s 2 (tonePeriod (s.registers 5) (s.registers 4))
  | 6 =>
    { s with noise := { s.noise with period := max 1 (((s.registers 6).val &&& 0x1F) * 2) } }
  | 7 =>
    let mixer := (s.registers 7).val
    { s with
      voices := fun i =>
        { s.voices i with
          toneEnabled := (mixer &&& (1 <<< i.val)) == 0
          noiseEnabled := (mixer &&& (1 <<< (i.val + 3))) == 0 } }
  | 8 | 9 | 10 =>
    let channel : Fin 3 := Fin.ofNat (register - 8)
    let volumeReg := (s.registers (Fin.ofNat register)).val
    { s with
      voices := Function.update s.voices channel
        { s.voices channel with
          volume := volumeReg &&& 0x0F
          envEnabled := (volumeReg &&& 0x10) != 0 } }
  | 11 | 12 =>
    { s with
      envelope :=
        { s.envelope with
          period := max 1 ((((s.registers 12).val <<< 8) ||| (s.registers 11).val) * 2) } }
  | 13 =>
    let shape := (s.registers 13).val
    let attack := (shape &&& 0x04) != 0
    { s with
      envelope :=
        { s.envelope with
          continueFlag := (shape &&& 0x08) != 0
          attack := attack
          alternate := (shape &&& 0x02) != 0
          hold := (shape &&& 0x01) != 0
          phase := 0
          counter := 0
          holding := false
          output := if attack then 0 else 15 } }
  | _ => s

/-- Method `writeRegister(register, value)` on integer arguments: the outcome
(`error` for the thrown `Error`) and the state the emulator is left in. -/
def writeRegister (s : YM2149Emulator) (register value : Int) :
    Except String Unit × YM2149Emulator :=
  if h : register < 0 ∨ register > 15 then
    (Except.error ("Invalid register: " ++ toString register), s)
  else
    let idx : Fin 16 := ⟨register.toNat, by omega⟩
    let s1 := { s with registers := Function.update s.registers idx (toByte value) }
    (Except.ok (), updateInternalState s1 register.toNat)

/-! ## Generators -/

/-- Method `updateNoise()`, which reads and writes `this.noise` only. -/
def updateNoise (n : Noise) : Noise :=
  let counter := n.counter + 1
  if counter ≥ n.period then
    let feedback := ((n.lfsr &&& 1) ^^^ ((n.lfsr >>> 3) &&& 1)) &&& 1
    let lfsr := ((n.lfsr >>> 1) ||| (feedback <<< 16)) &&& 0x1FFFF
    { n with counter := 0, lfsr := lfsr, output := lfsr &&& 1 }
  else
    { n with counter := counter }

/-- Method `updateEnvelope()`, which reads and writes `this.envelope` only. -/
def updateEnvelope (e : Envelope) : Envelope :=
  if !e.continueFlag && e.holding then e
  else
    let counter := e.counter + 1
    if counter ≥ e.period then
      let e := { e with counter := 0 }
      if !e.holding then
        let e :=
          if e.attack then
            let e := { e with phase := e.phase + 1 }
            if e.phase ≥ 32 then
              let e := { e with phase := 31 }
              if !e.continueFlag then { e with holding := true }
              else if e.alternate then { e with attack := false }
              else { e with phase := 0 }
            else e
          else
            let e := { e with phase := e.phase - 1 }
            if e.phase < 0 then
              let e := { e with phase := 0 }
              if !e.continueFlag then { e with holding := true }
              else if e.alternate then { e with attack := true }
              else { e with phase := 31 }
            else e
        { e with output := e.phase }
      else e
    else
      { e with counter := counter }

/-- The tone-generator update at the head of the voice loop of
`generateSample()`. -/
def updateTone (voice : Voice) : Voice :=
  let counter := voice.counter + 1
  if counter ≥ voice.period then
    { voice with counter := 0, output := 1 - voice.output }
  else
    { voice with counter := counter }

/-- The gate of `generateSample()`: the three `if` statements that assign
`voiceEnabled`, in the order of the source; `voice` is the voice after its tone
update and `noiseOutput` is `this.noise.output` after `updateNoise()`. -/
def voiceEnabled (voice : Voice) (noiseOutput : Nat) : Bool :=
  let enabled := false
  let enabled := if voice.toneEnabled && (voice.output != 0) then true else enabled
  let enabled := if voice.noiseEnabled && (noiseOutput != 0) then true else enabled
  let enabled := if !voice.toneEnabled && !voice.noiseEnabled then false else enabled
  enabled

/-- The gate after its first two `if` statements only. -/
def voiceEnabledFirstTwo (voice : Voice) (noiseOutput : Nat) : Bool :=
  let enabled := false
  let enabled := if voice.toneEnabled && (voice.output != 0) then true else enabled
  let enabled := if voice.noiseEnabled && (noiseOutput != 0) then true else enabled
  enabled

/-- The index at which an enabled voice reads `this.volumeTable`. -/
def volumeIndex (voice : Voice) (e : Envelope) : Int :=
  if voice.envEnabled then e.output else voice.volume

/-- What one call of `generateSample()` does before it sums: the state it
leaves, and for each voice the index of the `volumeTable` entry it adds to
`mixedOutput` (`none` when the voice adds nothing). -/
structure SampleStep where
  state : YM2149Emulator
  lookups : Fin 3 → Option Int

/-- Method `generateSample()` up to the summation of the table entries. -/
def generateSample (s : YM2149Emulator) : SampleStep :=
  let noise := updateNoise s.noise
  let envelope := updateEnvelope s.envelope
  let voices := fun i => updateTone (s.voices i)
  { state := { s with noise := noise, envelope := envelope, voices := voices }
    lookups := fun i =>
      if voiceEnabled (voices i) noise.output then some (volumeIndex (voices i) envelope)
      else none }

/-- The state after `n` successive calls of `generateSample()`. -/
def ticks (n : Nat) (s : YM2149Emulator) : YM2149Emulator :=
  (fun t => (generateSample t).state)^[n] s

/-- States reachable from construction by `reset()`, successful
`writeRegister` calls and `generateSample()` calls. -/
inductive Reachable : YM2149Emulator → Prop
  | construct : Reachable construct
  | reset {s : YM2149Emulator} : Reachable s → Reachable (reset s)
  | write {s : YM2149Emulator} (register value : Int) :
      Reachable s → (writeRegister s register value).1 = Except.ok () →
      Reachable (writeRegister s register value).2
  | sample {s : YM2149Emulator} : Reachable s → Reachable (generateSample s).state

/-- Index of the low period register of voice `k`. -/
def toneLowRegister (k : Fin 3) : Fin 16 := ⟨2 * k.val, by omega⟩

/-- Index of the high period register of voice `k`. -/
def toneHighRegister (k : Fin 3) : Fin 16 := ⟨2 * k.val + 1, by omega⟩

/-- One step of the shift register as `updateNoise()` computes it. -/
def lfsrStep (l : Nat) : Nat :=
  ((l >>> 1) ||| ((((l &&& 1) ^^^ ((l >>> 3) &&& 1)) &&& 1) <<< 16)) &&& 0x1FFFF

/-- Invariant of the noise generator: the shift register is a non-zero 17-bit
value and the output is a bit. -/
def NoiseInv (n : Noise) : Prop :=
  1 ≤ n.lfsr ∧ n.lfsr < 2 ^ 17 ∧ (n.output = 0 ∨ n.output = 1)

/-- The phase and attack flag of the envelope after one phase step of
`updateEnvelope()` when `continue` and `alternate` are set and the envelope is
not holding. -/
def triangleStep (x : Int × Bool) : Int × Bool :=
  if x.2 then
    if x.1 + 1 ≥ 32 then (31, false) else (x.1 + 1, true)
  else
    if x.1 - 1 < 0 then (0, true) else (x.1 - 1, false)

/-- The envelope `n` calls of `generateSample()` after `writeRegister(13, v)`
on the state `s`. -/
def envelopeAfter (s : YM2149Emulator) (v n : Nat) : Envelope :=
  (ticks n (writeRegister s 13 (v : Int)).2).envelope

/-! ## Sample value -/

/-- Read of `this.volumeTable[i]`: the constructor stores `0` at index 0 and
`Math.pow(2, (i - 15) / 2) * 0.5` at the indices 1..15; any other index reads
`undefined` (`none`). -/
noncomputable def volumeTable (i : Int) : Option ℝ :=
  if 0 ≤ i ∧ i < 16 then
    some (if i = 0 then 0 else (2 : ℝ) ^ (((i : ℝ) - 15) / 2) * 0.5)
  else none

/-- The statement `mixedOutput += volume` of an enabled voice that reads the
table at `lookup`, and no statement for a voice that is not enabled (`lookup`
is `none`); a `mixedOutput` of `none` is `NaN`. -/
noncomputable def addVolume (mixedOutput : Option ℝ) (lookup : Option Int) : Option ℝ :=
  match lookup with
  | none => mixedOutput
  | some index =>
    match mixedOutput, volumeTable index with
    | some m, some volume => some (m + volume)
    | _, _ => none

/-- The variable `mixedOutput` of `generateSample()` after the voice loop. -/
noncomputable def mixedSum (lookups : Fin 3 → Option Int) : Option ℝ :=
  addVolume (addVolume (addVolume (some 0) (lookups 0)) (lookups 1)) (lookups 2)

/-- The tail of `generateSample()` after the voice loop: normalisation, soft
clipping and scaling of a defined `mixedOutput`. -/
noncomputable def normalizeAndClip (mixedOutput : ℝ) : ℝ :=
  let mixedOutput := mixedOutput / 3
  let mixedOutput :=
    if mixedOutput > 1 then 1 - Real.exp (-(mixedOutput - 1)) else mixedOutput
  mixedOutput * 0.3

/-- The number returned by `generateSample()` called in the state `s`. -/
noncomputable def generateSampleValue (s : YM2149Emulator) : Option ℝ :=
  (mixedSum (generateSample s).lookups).map normalizeAndClip

/-- What reading `outputBuffer[i]` yields: `undefined` (a hole of a plain
`Array`, or an index outside a typed array) or a number (`none` for `NaN`). -/
inductive Cell where
  | undefined
  | number (value : Option ℝ)

/-- A buffer passed to `processSamples`. `length` is `some L` for a typed array
of `L` elements, whose length is fixed, and `none` for a plain `Array`, which
grows on assignment. `convert` is what the element type makes of a number on
store: the number itself for a plain `Array` or a `Float64Array`, the number
rounded to 32 bits for a `Float32Array`. `cells` is the content by index. -/
structure OutputBuffer where
  length : Option Nat
  convert : Option ℝ → Option ℝ
  cells : Nat → Cell

/-- Whether index `i` is an element the buffer has or can take: every index of
a plain `Array`, the indices below the length of a typed array. -/
def OutputBuffer.inRange (b : OutputBuffer) (i : Nat) : Bool :=
  match b.length with
  | none => true
  | some n => decide (i < n)

/-- The expression `outputBuffer[i]`. -/
def OutputBuffer.read (b : OutputBuffer) (i : Nat) : Cell :=
  if b.inRange i then b.cells i else Cell.undefined

/-- The assignment `outputBuffer[i] = value`: a typed array ignores it when `i`
is not below its length. -/
def OutputBuffer.assign (b : OutputBuffer) (i : Nat) (value : Option ℝ) : OutputBuffer :=
  if b.inRange i then { b with cells := Function.update b.cells i (Cell.number (b.convert value)) }
  else b

/-- Method `processSamples(outputBuffer, numSamples)`: the state and the buffer
it leaves. -/
noncomputable def processSamples (s : YM2149Emulator) (outputBuffer : OutputBuffer)
    (numSamples : Nat) : YM2149Emulator × OutputBuffer :=
  (List.range numSamples).foldl
    (fun acc i => ((generateSample acc.1).state, acc.2.assign i (generateSampleValue acc.1)))
    (s, outputBuffer)

/-- A `new Float64Array(n)`: `n` elements, stored as they are, all 0. -/
def zeroedFloat64Array (n : Nat) : OutputBuffer where
  length := some n
  convert := fun value => value
  cells := fun _ => Cell.number (some 0)

/-- The emulator of the end-to-end scenario: a new emulator after
`writeRegister(0, 100)`, `writeRegister(1, 0)`, `writeRegister(8, 15)` and
`writeRegister(7, 0x3E)`. -/
def scenarioToneA : YM2149Emulator :=
  (writeRegister (writeRegister (writeRegister (writeRegister construct 0 100).2 1 0).2
    8 15).2 7 0x3E).2

/-- A new emulator after `writeRegister(8, 0x10)` and `writeRegister(13, 0x04)`:
voice A takes its level from the envelope, which ramps upwards. -/
def envelopeRampA : YM2149Emulator :=
  (writeRegister (writeRegister construct 8 0x10).2 13 0x04).2

/-- Range of the envelope phase and output. -/
def EnvelopeInv (e : Envelope) : Prop :=
  0 ≤ e.phase ∧ e.phase ≤ 31 ∧ 0 ≤ e.output ∧ e.output ≤ 31

/-- The shift register after `n` steps of `lfsrStep` from `l`, computed with the
intermediate value evaluated at every step. -/
def lfsrRun : Nat → Nat → Nat
  | 0, l => l
  | n + 1, l =>
    match lfsrStep l with
    | 0 => lfsrRun n 0
    | k + 1 => lfsrRun n (k + 1)

/-- One call on the emulator's public interface. -/
inductive Call where
  | reset
  | write (register value : Int)
  | sample
deriving DecidableEq, Repr

/-- The state after one call; a `writeRegister` that throws leaves the state as
it was. -/
def applyCall (s : YM2149Emulator) : Call → YM2149Emulator
  | Call.reset => reset s
  | Call.write register value => (writeRegister s register value).2
  | Call.sample => (generateSample s).state

/-- The state after a sequence of calls, performed in order. -/
def runCalls (calls : List Call) (s : YM2149Emulator) : YM2149Emulator :=
  calls.foldl applyCall s

/-- A call that is a `generateSample()` or a `writeRegister` that does not
throw. -/
def isSampleOrValidWrite : Call → Bool
  | Call.reset => false
  | Call.write register _ => decide (0 ≤ register ∧ register ≤ 15)
  | Call.sample => true

/-- Two calls are the same, except that two writes to register 13 may differ in
bit 0 of the value. -/
def SameUpToHoldBit : Call → Call → Prop
  | Call.reset, Call.reset => True
  | Call.sample, Call.sample => True
  | Call.write r1 v1, Call.write r2 v2 =>
    r1 = r2 ∧ (if r1 = 13 then v1 / 2 = v2 / 2 else v1 = v2)
  | _, _ => False

/-- Two states agree on everything but bit 0 of register 13 and the stored
`hold` flag of the envelope. -/
def HoldEquiv (s t : YM2149Emulator) : Prop :=
  (∀ r : Fin 16, r ≠ 13 → s.registers r = t.registers r) ∧
  (s.registers 13).val / 2 = (t.registers 13).val / 2 ∧
  s.voices = t.voices ∧ s.noise = t.noise ∧
  t.envelope = { s.envelope with hold := t.envelope.hold }

/-- The table value a voice adds to the mix: the entry it reads, and 0 for a
voice that adds nothing. -/
noncomputable def tableValueOrZero (lookup : Option Int) : ℝ :=
  (lookup.bind volumeTable).getD 0

/-- Holding implies that the continue flag is clear. -/
def HoldingInv (e : Envelope) : Prop :=
  e.holding = true → e.continueFlag = false

/-! ## Auxiliary facts -/

theorem tonePeriod_pos (hi lo : Fin 256) : 1 ≤ tonePeriod hi lo := by
  unfold tonePeriod
  exact le_max_left _ _

theorem tonePeriod_le (hi lo : Fin 256) : tonePeriod hi lo ≤ 4095 := by
  unfold tonePeriod
  have h1 : hi.val &&& 0x0F ≤ 15 := Nat.and_le_right
  have h2 : (hi.val &&& 0x0F) <<< 8 < 2 ^ 12 := by
    rw [Nat.shiftLeft_eq]
    omega
  have h3 : lo.val < 2 ^ 12 := by
    have := lo.isLt
    omega
  have h4 := Nat.or_lt_two_pow h2 h3
  have h5 : (2 : Nat) ^ 12 = 4096 := by norm_num
  rw [h5] at h4
  exact max_le (by omega) (by omega)

theorem and_two_pow_ne_zero (v i : Nat) : ((v &&& 2 ^ i) != 0) = v.testBit i := by
  rw [Nat.and_two_pow]
  cases v.testBit i <;> simp

theorem toByte_natCast (v : Nat) (hv : v < 256) : (toByte (v : Int)).val = v := by
  unfold toByte
  simp only []
  omega

theorem or_eq_zero_left (a b : Nat) (h : a ||| b = 0) : a = 0 := by
  apply Nat.eq_of_testBit_eq
  intro i
  have hi := congrArg (fun x => x.testBit i) h
  simp only [Nat.testBit_or, Nat.zero_testBit, Bool.or_eq_false_iff] at hi
  simp [hi.1]

theorem or_eq_zero_right (a b : Nat) (h : a ||| b = 0) : b = 0 := by
  apply Nat.eq_of_testBit_eq
  intro i
  have hi := congrArg (fun x => x.testBit i) h
  simp only [Nat.testBit_or, Nat.zero_testBit, Bool.or_eq_false_iff] at hi
  simp [hi.2]

theorem lfsrStep_lt (l : Nat) : lfsrStep l < 2 ^ 17 := by
  unfold lfsrStep
  exact Nat.and_lt_two_pow _ (by norm_num)

theorem lfsrStep_pos (l : Nat) (h1 : 1 ≤ l) (h2 : l < 2 ^ 17) : 1 ≤ lfsrStep l := by
  unfold lfsrStep
  have hmask : (0x1FFFF : Nat) = 2 ^ 17 - 1 := by norm_num
  rw [hmask, Nat.and_pow_two_sub_one_eq_mod]
  have hfb : ((l &&& 1) ^^^ ((l >>> 3) &&& 1)) &&& 1 ≤ 1 := Nat.and_le_right
  have ha : l >>> 1 < 2 ^ 17 := by
    rw [Nat.shiftRight_eq_div_pow]
    norm_num at h2 ⊢
    omega
  have hb : (((l &&& 1) ^^^ ((l >>> 3) &&& 1)) &&& 1) <<< 16 < 2 ^ 17 := by
    rw [Nat.shiftLeft_eq]
    norm_num
    omega
  rw [Nat.mod_eq_of_lt (Nat.or_lt_two_pow ha hb)]
  by_contra hne
  have hz : (l >>> 1) ||| ((((l &&& 1) ^^^ ((l >>> 3) &&& 1)) &&& 1) <<< 16) = 0 := by omega
  have hl := or_eq_zero_left _ _ hz
  have hr := or_eq_zero_right _ _ hz
  rw [Nat.shiftRight_eq_div_pow] at hl
  have hl1 : l = 1 := by
    norm_num at hl
    omega
  subst hl1
  revert hr
  decide

theorem updateNoise_inv (n : Noise) (h : NoiseInv n) : NoiseInv (updateNoise n) := by
  obtain ⟨h1, h2, h3⟩ := h
  unfold updateNoise
  by_cases hc : n.counter + 1 ≥ n.period
  · simp only [hc, if_true]
    refine ⟨lfsrStep_pos n.lfsr h1 h2, lfsrStep_lt n.lfsr, ?_⟩
    show _ &&& 1 = 0 ∨ _ &&& 1 = 1
    rw [Nat.and_one_is_mod]
    omega
  · simp only [hc, if_false]
    exact ⟨h1, h2, h3⟩

theorem updateInternalState_noise (s : YM2149Emulator) (register : Nat) :
    (updateInternalState s register).noise.lfsr = s.noise.lfsr ∧
      (updateInternalState s register).noise.output = s.noise.output ∧
      (updateInternalState s register).noise.counter = s.noise.counter := by
  unfold updateInternalState
  split <;> simp [setVoicePeriod]

theorem writeRegister_noise (s : YM2149Emulator) (register value : Int) :
    (writeRegister s register value).2.noise.lfsr = s.noise.lfsr ∧
      (writeRegister s register value).2.noise.output = s.noise.output ∧
      (writeRegister s register value).2.noise.counter = s.noise.counter := by
  unfold writeRegister
  by_cases h : register < 0 ∨ register > 15
  · simp [h]
  · simp only [h, dif_neg, not_false_eq_true]
    exact updateInternalState_noise _ _

theorem succ_mod_div_wrap (n P : Nat) (hP : 0 < P) (h : P ≤ n % P + 1) :
    (n + 1) % P = 0 ∧ (n + 1) / P = n / P + 1 := by
  have hm := Nat.mod_lt n hP
  have hd := Nat.div_add_mod n P
  have e : n + 1 = P * (n / P + 1) := by
    rw [Nat.mul_add, Nat.mul_one]
    omega
  rw [e]
  exact ⟨Nat.mul_mod_right _ _, Nat.mul_div_cancel_left _ hP⟩

theorem succ_mod_div_step (n P : Nat) (h : n % P + 1 < P) :
    (n + 1) % P = n % P + 1 ∧ (n + 1) / P = n / P := by
  have hP : 0 < P := by omega
  have hd := Nat.div_add_mod n P
  have e : n + 1 = P * (n / P) + (n % P + 1) := by omega
  constructor
  · rw [e, Nat.mul_add_mod, Nat.mod_eq_of_lt h]
  · rw [e, Nat.mul_add_div hP, Nat.div_eq_of_lt h, Nat.add_zero]

theorem ticks_succ (n : Nat) (s : YM2149Emulator) :
    ticks (n + 1) s = (generateSample (ticks n s)).state := by
  unfold ticks
  exact Function.iterate_succ_apply' _ n s

theorem ticks_envelope (n : Nat) (s : YM2149Emulator) :
    (ticks n s).envelope = updateEnvelope^[n] s.envelope := by
  induction n with
  | zero => rfl
  | succ n ih =>
    rw [ticks_succ, Function.iterate_succ_apply', ← ih]
    rfl

theorem ticks_voices (n : Nat) (s : YM2149Emulator) (i : Fin 3) :
    (ticks n s).voices i = updateTone^[n] (s.voices i) := by
  induction n with
  | zero => rfl
  | succ n ih =>
    rw [ticks_succ, Function.iterate_succ_apply', ← ih]
    rfl

theorem ticks_noise (n : Nat) (s : YM2149Emulator) :
    (ticks n s).noise = updateNoise^[n] s.noise := by
  induction n with
  | zero => rfl
  | succ n ih =>
    rw [ticks_succ, Function.iterate_succ_apply', ← ih]
    rfl

/-- Closed form of the envelope `n` ticks after a shape write with attack set
and continue clear. -/
theorem updateEnvelope_iterate_attack_oneshot (P sh : Nat) (alt hd : Bool) (hP : 1 ≤ P)
    (n : Nat) :
    updateEnvelope^[n]
        { counter := 0, period := P, shape := sh, phase := 0, output := 0, holding := false,
          attack := true, alternate := alt, continueFlag := false, hold := hd } =
      if n < 32 * P then
        { counter := n % P, period := P, shape := sh, phase := ((n / P : Nat) : Int),
          output := ((n / P : Nat) : Int), holding := false,
          attack := true, alternate := alt, continueFlag := false, hold := hd }
      else
        { counter := 0, period := P, shape := sh, phase := 31, output := 31, holding := true,
          attack := true, alternate := alt, continueFlag := false, hold := hd } := by
  induction n with
  | zero =>
    have h0 : 0 < 32 * P := by omega
    simp [h0]
  | succ n ih =>
    rw [Function.iterate_succ_apply', ih]
    by_cases hn : n < 32 * P
    · have hq : n / P < 32 := by
        rw [Nat.div_lt_iff_lt_mul (by omega)]
        omega
      rw [if_pos hn]
      by_cases hw : P ≤ n % P + 1
      · obtain ⟨hm, hd'⟩ := succ_mod_div_wrap n P (by omega) hw
        by_cases hn1 : n + 1 < 32 * P
        · have hq1 : (n + 1) / P < 32 := by
            rw [Nat.div_lt_iff_lt_mul (by omega)]
            omega
          rw [if_pos hn1, hm]
          rw [hd'] at hq1 ⊢
          generalize n / P = q at hq hq1 ⊢
          have hq2 : ¬ ((32 : Int) ≤ (q : Int) + 1) := by omega
          simp [updateEnvelope, hw, hq2]
        · have hq1 : ¬ (n + 1) / P < 32 := by
            rw [Nat.div_lt_iff_lt_mul (by omega)]
            omega
          rw [if_neg hn1]
          rw [hd'] at hq1
          generalize n / P = q at hq hq1 ⊢
          have hq2 : (32 : Int) ≤ (q : Int) + 1 := by omega
          simp [updateEnvelope, hw, hq2]
      · obtain ⟨hm, hd'⟩ := succ_mod_div_step n P (by omega)
        have hn1 : n + 1 < 32 * P := by
          have hq1 : (n + 1) / P < 32 := by omega
          rw [Nat.div_lt_iff_lt_mul (by omega)] at hq1
          omega
        rw [if_pos hn1, hm, hd']
        generalize n / P = q at hq ⊢
        simp [updateEnvelope, hw]
    · have hn1 : ¬ n + 1 < 32 * P := by omega
      rw [if_neg hn, if_neg hn1]
      simp [updateEnvelope]

theorem writeRegister_shape_envelope (s : YM2149Emulator) (v : Nat) (hv : v < 256) :
    (writeRegister s 13 (v : Int)).2.envelope =
      { counter := 0, period := s.envelope.period, shape := s.envelope.shape, phase := 0,
        output := if v.testBit 2 then 0 else 15, holding := false,
        attack := v.testBit 2, alternate := v.testBit 1, continueFlag := v.testBit 3,
        hold := v.testBit 0 } := by
  have hb := toByte_natCast v hv
  have h3 := and_two_pow_ne_zero v 3
  have h2 := and_two_pow_ne_zero v 2
  have h1 := and_two_pow_ne_zero v 1
  have h0 := and_two_pow_ne_zero v 0
  norm_num at h3 h2 h1 h0
  simp [writeRegister, updateInternalState, hb, h3, h2, h1, h0]

theorem testBit_of_and_eq (v m r i : Nat) (h : v &&& m = r) (hm : m.testBit i = true) :
    v.testBit i = r.testBit i := by
  rw [← h, Nat.testBit_and, hm, Bool.and_true]

/-- Closed form of the envelope `n` ticks after a shape write with continue and
alternate set: the counter is `n % P` and phase and attack flag are the
`n / P`-th iterate of `triangleStep`. -/
theorem updateEnvelope_iterate_triangle (P sh : Nat) (out0 : Int) (a hd : Bool) (hP : 1 ≤ P)
    (n : Nat) :
    updateEnvelope^[n]
        { counter := 0, period := P, shape := sh, phase := 0, output := out0, holding := false,
          attack := a, alternate := true, continueFlag := true, hold := hd } =
      { counter := n % P, period := P, shape := sh,
        phase := (triangleStep^[n / P] (0, a)).1,
        output := if n / P = 0 then out0 else (triangleStep^[n / P] (0, a)).1,
        holding := false,
        attack := (triangleStep^[n / P] (0, a)).2, alternate := true, continueFlag := true,
        hold := hd } := by
  induction n with
  | zero => simp
  | succ n ih =>
    rw [Function.iterate_succ_apply', ih]
    by_cases hw : P ≤ n % P + 1
    · obtain ⟨hm, hd'⟩ := succ_mod_div_wrap n P (by omega) hw
      rw [hm, hd', Function.iterate_succ_apply']
      generalize triangleStep^[n / P] (0, a) = x
      obtain ⟨ph, at'⟩ := x
      cases at' <;> simp [updateEnvelope, triangleStep, hw] <;> split_ifs <;> simp
    · obtain ⟨hm, hd'⟩ := succ_mod_div_step n P (by omega)
      rw [hm, hd']
      simp [updateEnvelope, hw]

theorem triangleStep_range (x : Int × Bool) (h : 0 ≤ x.1 ∧ x.1 ≤ 31) :
    0 ≤ (triangleStep x).1 ∧ (triangleStep x).1 ≤ 31 ∧
      (triangleStep x).1 - x.1 ≤ 1 ∧ x.1 - (triangleStep x).1 ≤ 1 := by
  obtain ⟨ph, a⟩ := x
  simp only at h
  unfold triangleStep
  cases a <;> simp only [] <;> split_ifs <;> simp <;> omega

theorem triangleStep_iterate_range (a : Bool) (k : Nat) :
    0 ≤ (triangleStep^[k] (0, a)).1 ∧ (triangleStep^[k] (0, a)).1 ≤ 31 := by
  induction k with
  | zero => simp
  | succ k ih =>
    rw [Function.iterate_succ_apply']
    have h := triangleStep_range _ ih
    exact ⟨h.1, h.2.1⟩

set_option maxRecDepth 100000 in
theorem triangleStep_iterate_64 (a : Bool) : triangleStep^[64] (0, a) = (0, a) := by
  cases a <;> decide

theorem triangleStep_iterate_32 (a : Bool) : (triangleStep^[32] (0, a)).1 = 31 := by
  cases a <;> decide

theorem triangleStep_iterate_add_64 (a : Bool) (k : Nat) :
    triangleStep^[k + 64] (0, a) = triangleStep^[k] (0, a) := by
  rw [Function.iterate_add_apply, triangleStep_iterate_64]

theorem triangleStep_iterate_mul_64 (a : Bool) (q r : Nat) :
    triangleStep^[64 * q + r] (0, a) = triangleStep^[r] (0, a) := by
  induction q with
  | zero => simp
  | succ q ih =>
    have e : 64 * (q + 1) + r = (64 * q + r) + 64 := by ring
    rw [e, triangleStep_iterate_add_64, ih]

/-- Every window of `K` consecutive naturals holds a number congruent to `t`
modulo `K`. -/
theorem exists_congruent_in_window (n K t : Nat) (ht : t < K) :
    ∃ m q, n ≤ m ∧ m < n + K ∧ m = K * q + t := by
  have hd := Nat.div_add_mod n K
  have hm := Nat.mod_lt n (show 0 < K by omega)
  by_cases h : n % K ≤ t
  · exact ⟨K * (n / K) + t, n / K, by omega, by omega, rfl⟩
  · refine ⟨K * (n / K + 1) + t, n / K + 1, ?_, ?_, rfl⟩
    · rw [Nat.mul_add, Nat.mul_one]
      omega
    · rw [Nat.mul_add, Nat.mul_one]
      omega

/-- Closed form of a voice `n` tone updates after its counter was 0. -/
theorem updateTone_iterate (P vol : Nat) (o0 : Int) (ee ne te : Bool) (hP : 1 ≤ P) (n : Nat) :
    updateTone^[n]
        { counter := 0, output := o0, period := P, volume := vol, envEnabled := ee,
          noiseEnabled := ne, toneEnabled := te } =
      { counter := n % P, output := if (n / P) % 2 = 0 then o0 else 1 - o0, period := P,
        volume := vol, envEnabled := ee, noiseEnabled := ne, toneEnabled := te } := by
  induction n with
  | zero => simp
  | succ n ih =>
    rw [Function.iterate_succ_apply', ih]
    by_cases hw : P ≤ n % P + 1
    · obtain ⟨hm, hd⟩ := succ_mod_div_wrap n P (by omega) hw
      rw [hm, hd]
      generalize n / P = q
      rcases Nat.mod_two_eq_zero_or_one q with hq | hq
      · have hq1 : (q + 1) % 2 ≠ 0 := by omega
        simp [updateTone, hw, hq, hq1]
      · have hq1 : (q + 1) % 2 = 0 := by omega
        simp [updateTone, hw, hq, hq1]
    · obtain ⟨hm, hd⟩ := succ_mod_div_step n P (by omega)
      rw [hm, hd]
      simp [updateTone, hw]

theorem updateTone_output_bit (voice : Voice) (h : voice.output = 0 ∨ voice.output = 1) :
    (updateTone voice).output = 0 ∨ (updateTone voice).output = 1 := by
  unfold updateTone
  by_cases hc : voice.counter + 1 ≥ voice.period
  · simp only [hc, if_true]
    omega
  · simp only [hc, if_false]
    exact h

theorem updateNoise_output_bit (n : Noise) (h : n.output = 0 ∨ n.output = 1) :
    (updateNoise n).output = 0 ∨ (updateNoise n).output = 1 := by
  unfold updateNoise
  by_cases hc : n.counter + 1 ≥ n.period
  · simp only [hc, if_true]
    rw [Nat.and_one_is_mod]
    omega
  · simp only [hc, if_false]
    exact h

theorem voiceEnabled_iff (voice : Voice) (noiseOutput : Nat)
    (hv : voice.output = 0 ∨ voice.output = 1) (hn : noiseOutput = 0 ∨ noiseOutput = 1) :
    voiceEnabled voice noiseOutput = true ↔
      (voice.toneEnabled = true ∧ voice.output = 1) ∨
        (voice.noiseEnabled = true ∧ noiseOutput = 1) := by
  unfold voiceEnabled
  rcases hv with hv | hv <;> rcases hn with hn | hn <;>
    cases voice.toneEnabled <;> cases voice.noiseEnabled <;> simp [hv, hn]

theorem voiceEnabled_eq_firstTwo (voice : Voice) (noiseOutput : Nat) :
    voiceEnabled voice noiseOutput = voiceEnabledFirstTwo voice noiseOutput := by
  unfold voiceEnabled voiceEnabledFirstTwo
  cases voice.toneEnabled <;> cases voice.noiseEnabled <;> simp

theorem updateInternalState_voice_output (s : YM2149Emulator) (register : Nat) (i : Fin 3) :
    ((updateInternalState s register).voices i).output = (s.voices i).output := by
  unfold updateInternalState
  split <;> simp only [setVoicePeriod, Function.update_apply] <;> split_ifs <;> simp_all

theorem writeRegister_voice_output (s : YM2149Emulator) (register value : Int) (i : Fin 3) :
    ((writeRegister s register value).2.voices i).output = (s.voices i).output := by
  unfold writeRegister
  by_cases h : register < 0 ∨ register > 15
  · simp [h]
  · simp only [h, dif_neg, not_false_eq_true]
    exact updateInternalState_voice_output _ _ i

/-- In every reachable state each voice output is a bit. -/
theorem reachable_voice_output_bit (s : YM2149Emulator) (hs : Reachable s) (i : Fin 3) :
    (s.voices i).output = 0 ∨ (s.voices i).output = 1 := by
  induction hs with
  | construct => exact Or.inl rfl
  | reset _ _ => exact Or.inl rfl
  | write register value _ _ ih =>
    rw [writeRegister_voice_output]
    exact ih
  | sample _ ih => exact updateTone_output_bit _ ih

theorem updateInternalState_registers (s : YM2149Emulator) (register : Nat) :
    (updateInternalState s register).registers = s.registers := by
  unfold updateInternalState
  split <;> simp [setVoicePeriod]

theorem and_one_shiftLeft_eq_zero (v i : Nat) : ((v &&& (1 <<< i)) == 0) = !v.testBit i := by
  rw [Nat.one_shiftLeft, ← and_two_pow_ne_zero v i]
  cases h : (v &&& 2 ^ i) == 0 <;> simp [bne, h]

/-- The voices after `writeRegister(7, v)` for a byte `v`. -/
theorem writeRegister_mixer_voices (s : YM2149Emulator) (v : Nat) (hv : v < 256) :
    (writeRegister s 7 (v : Int)).2.voices = fun i =>
      { s.voices i with
        toneEnabled := !v.testBit i.val
        noiseEnabled := !v.testBit (i.val + 3) } := by
  have hb := toByte_natCast v hv
  funext i
  simp [writeRegister, updateInternalState, hb, and_one_shiftLeft_eq_zero]

theorem updateEnvelope_inv (e : Envelope) (h : EnvelopeInv e) :
    EnvelopeInv (updateEnvelope e) := by
  obtain ⟨c, p, sh, ph, out, holding, att, alt, cont, hd⟩ := e
  simp only [EnvelopeInv] at h ⊢
  obtain ⟨h1, h2, h3, h4⟩ := h
  unfold updateEnvelope
  cases holding <;> cases att <;> cases alt <;> cases cont <;>
    by_cases hc : c + 1 ≥ p <;> by_cases hp1 : ph + 1 ≥ 32 <;> by_cases hp2 : ph - 1 < 0 <;>
    simp [hc, hp1, hp2] <;> omega

theorem updateInternalState_envelope_inv (s : YM2149Emulator) (register : Nat)
    (h : EnvelopeInv s.envelope) : EnvelopeInv (updateInternalState s register).envelope := by
  obtain ⟨h1, h2, h3, h4⟩ := h
  unfold updateInternalState EnvelopeInv
  split
  all_goals first
    | exact ⟨h1, h2, h3, h4⟩
    | (simp only []
       split_ifs <;> omega)

theorem writeRegister_envelope_inv (s : YM2149Emulator) (register value : Int)
    (h : EnvelopeInv s.envelope) : EnvelopeInv (writeRegister s register value).2.envelope := by
  unfold writeRegister
  by_cases hr : register < 0 ∨ register > 15
  · simp only [hr, dif_pos]
    exact h
  · simp only [hr, dif_neg, not_false_eq_true]
    exact updateInternalState_envelope_inv _ _ h

theorem reachable_ticks (s : YM2149Emulator) (hs : Reachable s) (n : Nat) :
    Reachable (ticks n s) := by
  induction n with
  | zero => exact hs
  | succ n ih =>
    rw [ticks_succ]
    exact Reachable.sample ih

theorem addVolume_none (lookup : Option Int) : addVolume none lookup = none := by
  cases lookup <;> rfl

theorem volumeTable_zero : volumeTable 0 = some 0 := by
  simp [volumeTable]

theorem volumeTable_fifteen : volumeTable 15 = some (1 / 2) := by
  simp [volumeTable]
  norm_num

theorem volumeTable_outside (i : Int) (h : 16 ≤ i) : volumeTable i = none := by
  unfold volumeTable
  rw [if_neg (by omega)]

theorem processSamples_succ (s : YM2149Emulator) (outputBuffer : OutputBuffer) (n : Nat) :
    processSamples s outputBuffer (n + 1) =
      ((generateSample (processSamples s outputBuffer n).1).state,
        (processSamples s outputBuffer n).2.assign n
          (generateSampleValue (processSamples s outputBuffer n).1)) := by
  unfold processSamples
  rw [List.range_succ, List.foldl_append]
  rfl

/-- The state and the buffer content after `processSamples(outputBuffer, N)`. -/
theorem processSamples_cells (s : YM2149Emulator) (b : OutputBuffer) (N : Nat) :
    (processSamples s b N).1 = ticks N s ∧
      (processSamples s b N).2.length = b.length ∧
      (processSamples s b N).2.convert = b.convert ∧
      ∀ i, (processSamples s b N).2.cells i =
        if i < N ∧ b.inRange i = true then
          Cell.number (b.convert (generateSampleValue (ticks i s)))
        else b.cells i := by
  induction N with
  | zero =>
    refine ⟨rfl, rfl, rfl, ?_⟩
    intro i
    simp [processSamples]
  | succ n ih =>
    obtain ⟨ih1, ih2, ih3, ih4⟩ := ih
    have hr : ∀ j, (processSamples s b n).2.inRange j = b.inRange j := by
      intro j
      unfold OutputBuffer.inRange
      rw [ih2]
    rw [processSamples_succ, ticks_succ]
    simp only [OutputBuffer.assign, hr, ih1, ih3]
    by_cases hin : b.inRange n = true
    · simp only [hin, if_true]
      refine ⟨?_, ?_, ?_, ?_⟩
      · trivial
      · exact ih2
      · trivial
      · intro i
        simp only [Function.update_apply]
        by_cases hi : i = n
        · subst hi
          simp [hin]
        · rw [if_neg hi, ih4 i]
          by_cases hlt : i < n ∧ b.inRange i = true
          · rw [if_pos hlt, if_pos ⟨by omega, hlt.2⟩]
          · rw [if_neg hlt, if_neg]
            intro hc
            exact hlt ⟨by omega, hc.2⟩
    · simp only [hin, Bool.false_eq_true, if_false]
      refine ⟨?_, ?_, ?_, ?_⟩
      · trivial
      · exact ih2
      · exact ih3
      · intro i
        rw [ih4 i]
        by_cases hlt : i < n ∧ b.inRange i = true
        · rw [if_pos hlt, if_pos ⟨by omega, hlt.2⟩]
        · rw [if_neg hlt, if_neg]
          intro hc
          have hne : i ≠ n := by
            intro hc2
            rw [hc2] at hc
            exact hin hc.2
          exact hlt ⟨by omega, hc.2⟩

/-- The table read of a voice that is enabled by its tone alone. -/
theorem generateSample_lookups_of_voice (s : YM2149Emulator) (i : Fin 3) :
    (generateSample s).lookups i =
      if voiceEnabled (updateTone (s.voices i)) (updateNoise s.noise).output then
        some (volumeIndex (updateTone (s.voices i)) (updateEnvelope s.envelope))
      else none := by
  rfl

theorem scenarioToneA_voices :
    scenarioToneA.voices 0 =
        { counter := 0, output := 0, period := 100, volume := 15, envEnabled := false,
          noiseEnabled := false, toneEnabled := true } ∧
      scenarioToneA.voices 1 =
        { counter := 0, output := 0, period := 1, volume := 0, envEnabled := false,
          noiseEnabled := false, toneEnabled := false } ∧
      scenarioToneA.voices 2 =
        { counter := 0, output := 0, period := 1, volume := 0, envEnabled := false,
          noiseEnabled := false, toneEnabled := false } := by
  decide

theorem updateTone_fields (voice : Voice) :
    (updateTone voice).toneEnabled = voice.toneEnabled ∧
      (updateTone voice).noiseEnabled = voice.noiseEnabled ∧
      (updateTone voice).envEnabled = voice.envEnabled ∧
      (updateTone voice).volume = voice.volume ∧
      (updateTone voice).period = voice.period := by
  unfold updateTone
  by_cases hc : voice.counter + 1 ≥ voice.period
  · simp only [hc, if_true, and_self]
  · simp only [hc, if_false, and_self]

theorem voiceEnabled_both_disabled (voice : Voice) (noiseOutput : Nat)
    (ht : voice.toneEnabled = false) (hn : voice.noiseEnabled = false) :
    voiceEnabled voice noiseOutput = false := by
  unfold voiceEnabled
  simp [ht, hn]

theorem generateSample_lookups_both_disabled (s : YM2149Emulator) (i : Fin 3)
    (ht : (s.voices i).toneEnabled = false) (hn : (s.voices i).noiseEnabled = false) :
    (generateSample s).lookups i = none := by
  rw [generateSample_lookups_of_voice, voiceEnabled_both_disabled]
  · rfl
  · rw [(updateTone_fields _).1, ht]
  · rw [(updateTone_fields _).2.1, hn]

theorem lfsrRun_eq_iterate (n l : Nat) : lfsrRun n l = lfsrStep^[n] l := by
  induction n generalizing l with
  | zero => rfl
  | succ n ih =>
    rw [Function.iterate_succ_apply, ← ih (lfsrStep l), lfsrRun]
    generalize lfsrStep l = y
    cases y <;> rfl

theorem iterate_chain {α : Type} (f : α → α) (x a b : α) (m n : Nat) (h1 : f^[n] x = a)
    (h2 : f^[m] a = b) : f^[m + n] x = b := by
  rw [Function.iterate_add_apply, h1, h2]

theorem lfsrRun_chunk_0 : lfsrRun 16384 1 = 115460 := by decide!

theorem lfsrRun_chunk_1 : lfsrRun 16384 115460 = 67600 := by decide!

theorem lfsrRun_chunk_2 : lfsrRun 16384 67600 = 28864 := by decide!

theorem lfsrRun_chunk_3 : lfsrRun 16384 28864 = 33024 := by decide!

theorem lfsrRun_chunk_4 : lfsrRun 16384 33024 = 70688 := by decide!

theorem lfsrRun_chunk_5 : lfsrRun 16384 70688 = 20608 := by decide!

theorem lfsrRun_chunk_6 : lfsrRun 16384 20608 = 50184 := by decide!

theorem lfsrRun_chunk_7 : lfsrRun 16383 50184 = 1 := by decide!

/-- The shift register returns to the seed 1 after `2^17 - 1` steps. -/
theorem lfsrStep_iterate_131071 : lfsrStep^[131071] 1 = 1 := by
  have h0 : lfsrStep^[16384] 1 = 115460 := by
    rw [← lfsrRun_eq_iterate]
    exact lfsrRun_chunk_0
  have h1 : lfsrStep^[32768] 1 = 67600 := by
    refine iterate_chain lfsrStep 1 115460 67600 16384 16384 h0 ?_
    rw [← lfsrRun_eq_iterate]
    exact lfsrRun_chunk_1
  have h2 : lfsrStep^[49152] 1 = 28864 := by
    refine iterate_chain lfsrStep 1 67600 28864 16384 32768 h1 ?_
    rw [← lfsrRun_eq_iterate]
    exact lfsrRun_chunk_2
  have h3 : lfsrStep^[65536] 1 = 33024 := by
    refine iterate_chain lfsrStep 1 28864 33024 16384 49152 h2 ?_
    rw [← lfsrRun_eq_iterate]
    exact lfsrRun_chunk_3
  have h4 : lfsrStep^[81920] 1 = 70688 := by
    refine iterate_chain lfsrStep 1 33024 70688 16384 65536 h3 ?_
    rw [← lfsrRun_eq_iterate]
    exact lfsrRun_chunk_4
  have h5 : lfsrStep^[98304] 1 = 20608 := by
    refine iterate_chain lfsrStep 1 70688 20608 16384 81920 h4 ?_
    rw [← lfsrRun_eq_iterate]
    exact lfsrRun_chunk_5
  have h6 : lfsrStep^[114688] 1 = 50184 := by
    refine iterate_chain lfsrStep 1 20608 50184 16384 98304 h5 ?_
    rw [← lfsrRun_eq_iterate]
    exact lfsrRun_chunk_6
  refine iterate_chain lfsrStep 1 50184 1 16383 114688 h6 ?_
  rw [← lfsrRun_eq_iterate]
  exact lfsrRun_chunk_7

theorem prime_131071 : Nat.Prime 131071 := by
  norm_num

theorem lfsrStep_iterate_eq_one_iff (n : Nat) : lfsrStep^[n] 1 = 1 ↔ 131071 ∣ n := by
  have hper : Function.IsPeriodicPt lfsrStep 131071 1 := lfsrStep_iterate_131071
  have hfix : ¬ Function.IsFixedPt lfsrStep 1 := by
    unfold Function.IsFixedPt
    decide
  have hp : Fact (Nat.Prime 131071) := ⟨prime_131071⟩
  have hmin : Function.minimalPeriod lfsrStep 1 = 131071 :=
    Function.minimalPeriod_eq_prime hper hfix
  rw [← hmin]
  exact Function.isPeriodicPt_iff_minimalPeriod_dvd

/-- The noise generator `n` ticks after a reset: its period is 1, so the shift
register steps on every tick. -/
theorem updateNoise_iterate_after_reset (n : Nat) :
    (updateNoise^[n] { counter := 0, output := 0, period := 1, lfsr := 1 }).lfsr
        = lfsrStep^[n] 1 ∧
      (updateNoise^[n] { counter := 0, output := 0, period := 1, lfsr := 1 }).counter = 0 ∧
      (updateNoise^[n] { counter := 0, output := 0, period := 1, lfsr := 1 }).period = 1 := by
  induction n with
  | zero => exact ⟨rfl, rfl, rfl⟩
  | succ n ih =>
    obtain ⟨h1, h2, h3⟩ := ih
    rw [Function.iterate_succ_apply', Function.iterate_succ_apply', ← h1]
    generalize updateNoise^[n] { counter := 0, output := 0, period := 1, lfsr := 1 } = x at *
    unfold updateNoise
    have hc : x.counter + 1 ≥ x.period := by omega
    simp only [hc, if_true]
    refine ⟨?_, ?_, ?_⟩ <;> trivial

/-- Closed form of the envelope `n` ticks after a shape write with attack and
continue both clear. -/
theorem updateEnvelope_iterate_decay_oneshot (P sh : Nat) (alt hd : Bool) (hP : 1 ≤ P)
    (n : Nat) :
    updateEnvelope^[n]
        { counter := 0, period := P, shape := sh, phase := 0, output := 15, holding := false,
          attack := false, alternate := alt, continueFlag := false, hold := hd } =
      if n < P then
        { counter := n, period := P, shape := sh, phase := 0, output := 15, holding := false,
          attack := false, alternate := alt, continueFlag := false, hold := hd }
      else
        { counter := 0, period := P, shape := sh, phase := 0, output := 0, holding := true,
          attack := false, alternate := alt, continueFlag := false, hold := hd } := by
  induction n with
  | zero =>
    have h0 : 0 < P := by omega
    simp [h0]
  | succ n ih =>
    rw [Function.iterate_succ_apply', ih]
    by_cases hn : n < P
    · rw [if_pos hn]
      by_cases hn1 : n + 1 < P
      · rw [if_pos hn1]
        have hc : ¬ (P ≤ n + 1) := by omega
        simp [updateEnvelope, hc]
      · rw [if_neg hn1]
        have hc : P ≤ n + 1 := by omega
        simp [updateEnvelope, hc]
    · rw [if_neg hn, if_neg (by omega)]
      simp [updateEnvelope]

theorem updateEnvelope_holdingInv (e : Envelope) (h : HoldingInv e) :
    HoldingInv (updateEnvelope e) := by
  obtain ⟨c, p, sh, ph, out, holding, att, alt, cont, hd⟩ := e
  simp only [HoldingInv] at h ⊢
  unfold updateEnvelope
  cases holding <;> cases att <;> cases alt <;> cases cont <;>
    simp only [Bool.not_true, Bool.not_false, Bool.false_and, Bool.true_and, Bool.and_false,
      Bool.and_true, Bool.false_eq_true, if_false, if_true, reduceCtorEq] at h ⊢ <;>
    first | (split_ifs <;> simp_all) | simp_all

theorem updateInternalState_holdingInv (s : YM2149Emulator) (register : Nat)
    (h : HoldingInv s.envelope) : HoldingInv (updateInternalState s register).envelope := by
  unfold updateInternalState HoldingInv
  split
  all_goals first
    | exact h
    | (intro hh
       simp at hh)

theorem writeRegister_holdingInv (s : YM2149Emulator) (register value : Int)
    (h : HoldingInv s.envelope) : HoldingInv (writeRegister s register value).2.envelope := by
  unfold writeRegister
  by_cases hr : register < 0 ∨ register > 15
  · simp only [hr, dif_pos]
    exact h
  · simp only [hr, dif_neg, not_false_eq_true]
    exact updateInternalState_holdingInv _ _ h

theorem volumeTable_bounds (idx : Int) (h0 : 0 ≤ idx) (h15 : idx ≤ 15) :
    ∃ x, volumeTable idx = some x ∧ 0 ≤ x ∧ x ≤ 1 / 2 := by
  unfold volumeTable
  rw [if_pos ⟨h0, by omega⟩]
  refine ⟨_, rfl, ?_, ?_⟩
  · split_ifs
    · exact le_refl 0
    · positivity
  · split_ifs
    · norm_num
    · have hi : (idx : ℝ) ≤ 15 := by exact_mod_cast h15
      have he : ((idx : ℝ) - 15) / 2 ≤ 0 := by linarith
      have hpow : (2 : ℝ) ^ (((idx : ℝ) - 15) / 2) ≤ 1 :=
        Real.rpow_le_one_of_one_le_of_nonpos (by norm_num) he
      linarith

theorem tableValueOrZero_bounds (lookup : Option Int)
    (hl : ∀ idx, lookup = some idx → 0 ≤ idx ∧ idx ≤ 15) :
    0 ≤ tableValueOrZero lookup ∧ tableValueOrZero lookup ≤ 1 / 2 := by
  cases lookup with
  | none => simp [tableValueOrZero]
  | some idx =>
    obtain ⟨x, hx, hx0, hx1⟩ := volumeTable_bounds idx (hl idx rfl).1 (hl idx rfl).2
    simp [tableValueOrZero, hx, hx0]
    linarith

theorem addVolume_in_bounds (a : ℝ) (lookup : Option Int)
    (hl : ∀ idx, lookup = some idx → 0 ≤ idx ∧ idx ≤ 15) :
    addVolume (some a) lookup = some (a + tableValueOrZero lookup) := by
  cases lookup with
  | none => simp [addVolume, tableValueOrZero]
  | some idx =>
    obtain ⟨x, hx, _, _⟩ := volumeTable_bounds idx (hl idx rfl).1 (hl idx rfl).2
    simp [addVolume, tableValueOrZero, hx]

theorem updateInternalState_volume_le (s : YM2149Emulator) (register : Nat)
    (h : ∀ i, (s.voices i).volume ≤ 15) (i : Fin 3) :
    ((updateInternalState s register).voices i).volume ≤ 15 := by
  have hand : ∀ x : Nat, x &&& 0x0F ≤ 15 := fun x => Nat.and_le_right
  unfold updateInternalState
  split
  all_goals first
    | exact h i
    | (simp only [setVoicePeriod, Function.update_apply]
       split_ifs
       · first | exact hand _ | exact h _
       · exact h i)

theorem writeRegister_volume_le (s : YM2149Emulator) (register value : Int)
    (h : ∀ i, (s.voices i).volume ≤ 15) (i : Fin 3) :
    ((writeRegister s register value).2.voices i).volume ≤ 15 := by
  unfold writeRegister
  by_cases hr : register < 0 ∨ register > 15
  · simp only [hr, dif_pos]
    exact h i
  · simp only [hr, dif_neg, not_false_eq_true]
    refine updateInternalState_volume_le _ _ ?_ i
    exact h

/-- In every reachable state each voice volume is at most 15. -/
theorem reachable_volume_le (s : YM2149Emulator) (hs : Reachable s) (i : Fin 3) :
    (s.voices i).volume ≤ 15 := by
  induction hs generalizing i with
  | construct => exact Nat.zero_le _
  | reset _ _ => exact Nat.zero_le _
  | write register value _ _ ih => exact writeRegister_volume_le _ register value ih i
  | sample _ ih =>
    show (updateTone _).volume ≤ 15
    rw [(updateTone_fields _).2.2.2.1]
    exact ih i

/-- In every reachable state the envelope phase and output are in 0..31. -/
theorem reachable_envelopeInv (s : YM2149Emulator) (hs : Reachable s) :
    EnvelopeInv s.envelope := by
  induction hs with
  | construct => exact ⟨by decide, by decide, by decide, by decide⟩
  | reset _ _ => simp [reset, EnvelopeInv]
  | write register value _ _ ih => exact writeRegister_envelope_inv _ register value ih
  | sample _ ih => exact updateEnvelope_inv _ ih

/-- A table read of `generateSample()` is in bounds when the state is reachable
and the envelope output a voice with `envEnabled` reads is at most 15. -/
theorem generateSample_lookup_in_bounds (s : YM2149Emulator) (hs : Reachable s)
    (henv : ∀ i : Fin 3, (s.voices i).envEnabled = true →
      (generateSample s).state.envelope.output ≤ 15)
    (i : Fin 3) (idx : Int) (h : (generateSample s).lookups i = some idx) :
    0 ≤ idx ∧ idx ≤ 15 := by
  rw [generateSample_lookups_of_voice] at h
  have hinv := updateEnvelope_inv _ (reachable_envelopeInv s hs)
  have hvol := reachable_volume_le s hs i
  have hf := updateTone_fields (s.voices i)
  split_ifs at h
  simp only [Option.some.injEq] at h
  rw [← h]
  unfold volumeIndex
  rw [hf.2.2.1, hf.2.2.2.1]
  cases he : (s.voices i).envEnabled
  · simp only [Bool.false_eq_true, if_false]
    omega
  · simp only [if_true]
    exact ⟨hinv.2.2.1, henv i he⟩

theorem updateEnvelope_hold (e : Envelope) (b : Bool) :
    updateEnvelope { e with hold := b } = { updateEnvelope e with hold := b } := by
  obtain ⟨c, p, sh, ph, out, holding, att, alt, cont, hd⟩ := e
  simp only [updateEnvelope]
  split_ifs <;> rfl

theorem envelope_eq_with_hold (e f : Envelope) (h1 : f.counter = e.counter)
    (h2 : f.period = e.period) (h3 : f.shape = e.shape) (h4 : f.phase = e.phase)
    (h5 : f.output = e.output) (h6 : f.holding = e.holding) (h7 : f.attack = e.attack)
    (h8 : f.alternate = e.alternate) (h9 : f.continueFlag = e.continueFlag) :
    f = { e with hold := f.hold } := by
  obtain ⟨c, p, sh, ph, out, holding, att, alt, cont, hd⟩ := e
  obtain ⟨c', p', sh', ph', out', holding', att', alt', cont', hd'⟩ := f
  simp only at h1 h2 h3 h4 h5 h6 h7 h8 h9
  subst h1 h2 h3 h4 h5 h6 h7 h8 h9
  rfl

theorem holdEquiv_refl (s : YM2149Emulator) : HoldEquiv s s :=
  ⟨fun _ _ => rfl, rfl, rfl, rfl, rfl⟩

theorem and_two_pow_succ_of_half_eq (a b i : Nat) (h : a / 2 = b / 2) :
    ((a &&& 2 ^ (i + 1)) != 0) = ((b &&& 2 ^ (i + 1)) != 0) := by
  rw [and_two_pow_ne_zero, and_two_pow_ne_zero, Nat.testBit_succ, Nat.testBit_succ, h]

theorem holdEquiv_envelope_fields (e f : Envelope) (h : f = { e with hold := f.hold }) :
    f.counter = e.counter ∧ f.period = e.period ∧ f.shape = e.shape ∧ f.phase = e.phase ∧
      f.output = e.output ∧ f.holding = e.holding ∧ f.attack = e.attack ∧
      f.alternate = e.alternate ∧ f.continueFlag = e.continueFlag := by
  obtain ⟨c, p, sh, ph, out, holding, att, alt, cont, hd⟩ := e
  obtain ⟨c', p', sh', ph', out', holding', att', alt', cont', hd'⟩ := f
  simp only [Envelope.mk.injEq] at h
  obtain ⟨h1, h2, h3, h4, h5, h6, h7, h8, h9, _⟩ := h
  exact ⟨h1, h2, h3, h4, h5, h6, h7, h8, h9⟩

theorem holdEquiv_reset (s t : YM2149Emulator) (h : HoldEquiv s t) :
    HoldEquiv (reset s) (reset t) := by
  obtain ⟨_, _, h3, _, h5⟩ := h
  obtain ⟨_, _, _, _, _, _, f7, f8, f9⟩ := holdEquiv_envelope_fields _ _ h5
  refine ⟨fun _ _ => rfl, rfl, ?_, rfl, ?_⟩
  · funext i
    rfl
  · exact envelope_eq_with_hold _ _ rfl rfl rfl rfl rfl rfl f7 f8 f9

theorem holdEquiv_sample (s t : YM2149Emulator) (h : HoldEquiv s t) :
    HoldEquiv (generateSample s).state (generateSample t).state ∧
      (generateSample s).lookups = (generateSample t).lookups := by
  obtain ⟨h1, h2, h3, h4, h5⟩ := h
  have he : updateEnvelope t.envelope =
      { updateEnvelope s.envelope with hold := t.envelope.hold } := by
    rw [h5]
    exact updateEnvelope_hold _ _
  refine ⟨⟨h1, h2, ?_, ?_, ?_⟩, ?_⟩
  · show (fun i => updateTone (s.voices i)) = fun i => updateTone (t.voices i)
    rw [h3]
  · show updateNoise s.noise = updateNoise t.noise
    rw [h4]
  · show updateEnvelope t.envelope = { updateEnvelope s.envelope with
      hold := (updateEnvelope t.envelope).hold }
    rw [he]
  · funext i
    rw [generateSample_lookups_of_voice, generateSample_lookups_of_voice, h3, h4, he]
    rfl

theorem holdEquiv_setVoicePeriod (s t : YM2149Emulator) (h : HoldEquiv s t) (k : Fin 3)
    (p : Nat) : HoldEquiv (setVoicePeriod s k p) (setVoicePeriod t k p) := by
  obtain ⟨h1, h2, h3, h4, h5⟩ := h
  refine ⟨h1, h2, ?_, h4, h5⟩
  simp only [setVoicePeriod, h3]

theorem holdEquiv_updateInternalState (s t : YM2149Emulator) (h : HoldEquiv s t)
    (register : Nat) :
    HoldEquiv (updateInternalState s register) (updateInternalState t register) := by
  have h' := h
  obtain ⟨h1, h2, h3, h4, h5⟩ := h'
  obtain ⟨f1, f2, f3, f4, f5, f6, f7, f8, f9⟩ := holdEquiv_envelope_fields _ _ h5
  have r0 := h1 0 (by decide)
  have r1 := h1 1 (by decide)
  have r2 := h1 2 (by decide)
  have r3 := h1 3 (by decide)
  have r4 := h1 4 (by decide)
  have r5 := h1 5 (by decide)
  have r6 := h1 6 (by decide)
  have r7 := h1 7 (by decide)
  have r8 := h1 8 (by decide)
  have r9 := h1 9 (by decide)
  have r10 := h1 10 (by decide)
  have r11 := h1 11 (by decide)
  have r12 := h1 12 (by decide)
  have b3 := and_two_pow_succ_of_half_eq _ _ 2 h2
  have b2 := and_two_pow_succ_of_half_eq _ _ 1 h2
  have b1 := and_two_pow_succ_of_half_eq _ _ 0 h2
  norm_num at b3 b2 b1
  unfold updateInternalState
  split
  · rw [r0, r1]
    exact holdEquiv_setVoicePeriod s t h 0 _
  · rw [r0, r1]
    exact holdEquiv_setVoicePeriod s t h 0 _
  · rw [r2, r3]
    exact holdEquiv_setVoicePeriod s t h 1 _
  · rw [r2, r3]
    exact holdEquiv_setVoicePeriod s t h 1 _
  · rw [r4, r5]
    exact holdEquiv_setVoicePeriod s t h 2 _
  · rw [r4, r5]
    exact holdEquiv_setVoicePeriod s t h 2 _
  · refine ⟨h1, h2, h3, ?_, h5⟩
    simp only [r6, h4]
  · refine ⟨h1, h2, ?_, h4, h5⟩
    simp only [r7, h3]
  · refine ⟨h1, h2, ?_, h4, h5⟩
    show Function.update s.voices _ _ = Function.update t.voices _ _
    rw [show s.registers (Fin.ofNat 8) = t.registers (Fin.ofNat 8) from r8, h3]
  · refine ⟨h1, h2, ?_, h4, h5⟩
    show Function.update s.voices _ _ = Function.update t.voices _ _
    rw [show s.registers (Fin.ofNat 9) = t.registers (Fin.ofNat 9) from r9, h3]
  · refine ⟨h1, h2, ?_, h4, h5⟩
    show Function.update s.voices _ _ = Function.update t.voices _ _
    rw [show s.registers (Fin.ofNat 10) = t.registers (Fin.ofNat 10) from r10, h3]
  · refine ⟨h1, h2, h3, h4, ?_⟩
    refine envelope_eq_with_hold _ _ f1 ?_ f3 f4 f5 f6 f7 f8 f9
    simp only [r11, r12]
  · refine ⟨h1, h2, h3, h4, ?_⟩
    refine envelope_eq_with_hold _ _ f1 ?_ f3 f4 f5 f6 f7 f8 f9
    simp only [r11, r12]
  · refine ⟨h1, h2, h3, h4, ?_⟩
    refine envelope_eq_with_hold _ _ rfl f2 f3 rfl ?_ rfl ?_ ?_ ?_
    · simp only [b2]
    · simp only [b2]
    · simp only [b1]
    · simp only [b3]
  · exact h

theorem holdEquiv_writeRegister (s t : YM2149Emulator) (h : HoldEquiv s t)
    (register v1 v2 : Int) (hv : if register = 13 then v1 / 2 = v2 / 2 else v1 = v2) :
    HoldEquiv (writeRegister s register v1).2 (writeRegister t register v2).2 := by
  unfold writeRegister
  by_cases hr : register < 0 ∨ register > 15
  · simp only [hr, dif_pos]
    exact h
  · simp only [hr, dif_neg, not_false_eq_true]
    apply holdEquiv_updateInternalState
    obtain ⟨h1, h2, h3, h4, h5⟩ := h
    refine ⟨?_, ?_, h3, h4, h5⟩
    · intro r hne
      simp only [Function.update_apply]
      split_ifs with hidx
      · have h13 : register ≠ 13 := by
          intro h13
          apply hne
          rw [hidx]
          apply Fin.ext
          simp only [h13]
          rfl
        rw [if_neg h13] at hv
        rw [hv]
      · exact h1 r hne
    · simp only [Function.update_apply]
      split_ifs with hidx
      · have h13 : register = 13 := by
          have hval := congrArg Fin.val hidx
          simp only at hval
          have : register.toNat = 13 := hval.symm
          omega
        rw [if_pos h13] at hv
        unfold toByte
        simp only
        omega
      · exact h2

theorem holdEquiv_applyCall (s t : YM2149Emulator) (h : HoldEquiv s t) (c1 c2 : Call)
    (hc : SameUpToHoldBit c1 c2) : HoldEquiv (applyCall s c1) (applyCall t c2) := by
  cases c1 <;> cases c2 <;> simp only [SameUpToHoldBit] at hc
  · exact holdEquiv_reset s t h
  · obtain ⟨hreg, hv⟩ := hc
    subst hreg
    exact holdEquiv_writeRegister s t h _ _ _ hv
  · exact (holdEquiv_sample s t h).1

theorem holdEquiv_runCalls (calls1 calls2 : List Call)
    (hc : List.Forall₂ SameUpToHoldBit calls1 calls2) (s t : YM2149Emulator)
    (h : HoldEquiv s t) : HoldEquiv (runCalls calls1 s) (runCalls calls2 t) := by
  induction hc generalizing s t with
  | nil => exact h
  | cons hhead _ ih => exact ih _ _ (holdEquiv_applyCall s t h _ _ hhead)

/-! ## Register interface -/

/-- C1: `writeRegister(index, value)` throws exactly when `index < 0` or
`index > 15`, whatever the integer `value` is. -/
theorem writeRegister_throws_iff (s : YM2149Emulator) (register value : Int) :
    (∃ msg, (writeRegister s register value).1 = Except.error msg) ↔
      (register < 0 ∨ register > 15) := by
  unfold writeRegister
  by_cases h : register < 0 ∨ register > 15
  · simp [h]
  · simp [h]

/-- C2: a `writeRegister` call that throws leaves the whole state (registers,
voices, noise generator, envelope generator) as it was before the call. -/
theorem writeRegister_throw_keeps_state (s : YM2149Emulator) (register value : Int)
    (msg : String) (hfail : (writeRegister s register value).1 = Except.error msg) :
    (writeRegister s register value).2 = s := by
  unfold writeRegister at hfail ⊢
  by_cases h : register < 0 ∨ register > 15
  · simp [h]
  · simp [h] at hfail

theorem writeRegister_throw_keeps_state_witness :
    (writeRegister construct 16 300).1 = Except.error "Invalid register: 16" ∧
      (writeRegister construct 16 300).2 = construct :=
  ⟨rfl, writeRegister_throw_keeps_state construct 16 300 "Invalid register: 16" rfl⟩

/-- C3: a write to either period register of voice `k` sets that voice's period
to `max(1, ((registers[2k+1] & 0x0F) << 8) | registers[2k])` of the updated
register bank, a value in 1..4095, and changes nothing else of the derived
state: the voice's counter, output, volume and enable flags, the other voices,
the noise generator and the envelope generator stay as they were. -/
theorem writeRegister_tone_period (s : YM2149Emulator) (k : Fin 3) (register value : Int)
    (hreg : register = 2 * (k.val : Int) ∨ register = 2 * (k.val : Int) + 1) :
    (writeRegister s register value).1 = Except.ok () ∧
    ((writeRegister s register value).2.voices k).period =
      max 1 (((((writeRegister s register value).2.registers (toneHighRegister k)).val
                &&& 0x0F) <<< 8)
              ||| ((writeRegister s register value).2.registers (toneLowRegister k)).val) ∧
    1 ≤ ((writeRegister s register value).2.voices k).period ∧
    ((writeRegister s register value).2.voices k).period ≤ 4095 ∧
    ((writeRegister s register value).2.voices k).counter = (s.voices k).counter ∧
    ((writeRegister s register value).2.voices k).output = (s.voices k).output ∧
    ((writeRegister s register value).2.voices k).volume = (s.voices k).volume ∧
    ((writeRegister s register value).2.voices k).envEnabled = (s.voices k).envEnabled ∧
    ((writeRegister s register value).2.voices k).noiseEnabled = (s.voices k).noiseEnabled ∧
    ((writeRegister s register value).2.voices k).toneEnabled = (s.voices k).toneEnabled ∧
    (∀ j, j ≠ k → (writeRegister s register value).2.voices j = s.voices j) ∧
    (writeRegister s register value).2.noise = s.noise ∧
    (writeRegister s register value).2.envelope = s.envelope := by
  have hp := tonePeriod_pos
  have hl := tonePeriod_le
  fin_cases k <;> rcases hreg with h | h <;> subst h <;>
    simp [writeRegister, updateInternalState, setVoicePeriod, toneHighRegister,
      toneLowRegister, hp, hl] <;>
    exact ⟨rfl, fun j hj => Function.update_noteq hj _ _⟩

theorem writeRegister_tone_period_witness :
    ((3 : Int) = 2 * (((1 : Fin 3).val : Nat) : Int) ∨
        (3 : Int) = 2 * (((1 : Fin 3).val : Nat) : Int) + 1) ∧
      ((writeRegister construct 3 0x2A).2.voices 1).period = 2560 ∧
      ((writeRegister construct 3 0x2A).2.voices 1).counter = (construct.voices 1).counter :=
  ⟨Or.inr (by decide),
    by
      have h := writeRegister_tone_period construct 1 3 0x2A (Or.inr (by decide))
      rw [h.2.1]
      decide,
    (writeRegister_tone_period construct 1 3 0x2A (Or.inr (by decide))).2.2.2.2.1⟩

/-- C4: a write of the byte `v` to register 13 sets the envelope to counter 0,
phase 0, not holding, output 0 when bit 2 of `v` (attack) is set and 15
otherwise, and takes continue/attack/alternate/hold from bits 3/2/1/0 of `v`;
the state before the write is arbitrary, so this also holds when register 13
already stores `v`. -/
theorem writeRegister_shape (s : YM2149Emulator) (v : Nat) (hv : v < 256) :
    (writeRegister s 13 (v : Int)).1 = Except.ok () ∧
    (writeRegister s 13 (v : Int)).2.envelope.counter = 0 ∧
    (writeRegister s 13 (v : Int)).2.envelope.phase = 0 ∧
    (writeRegister s 13 (v : Int)).2.envelope.holding = false ∧
    (writeRegister s 13 (v : Int)).2.envelope.output = (if v.testBit 2 then 0 else 15) ∧
    (writeRegister s 13 (v : Int)).2.envelope.continueFlag = v.testBit 3 ∧
    (writeRegister s 13 (v : Int)).2.envelope.attack = v.testBit 2 ∧
    (writeRegister s 13 (v : Int)).2.envelope.alternate = v.testBit 1 ∧
    (writeRegister s 13 (v : Int)).2.envelope.hold = v.testBit 0 := by
  have hb := toByte_natCast v hv
  have h3 := and_two_pow_ne_zero v 3
  have h2 := and_two_pow_ne_zero v 2
  have h1 := and_two_pow_ne_zero v 1
  have h0 := and_two_pow_ne_zero v 0
  norm_num at h3 h2 h1 h0
  simp [writeRegister, updateInternalState, hb, h3, h2, h1, h0]

theorem writeRegister_shape_witness :
    (5 < 256) ∧
      ((writeRegister construct 13 5).2.registers 13).val = 5 ∧
      (writeRegister (ticks 40 (writeRegister construct 13 5).2) 13 5).2.envelope.phase = 0 ∧
      (writeRegister (ticks 40 (writeRegister construct 13 5).2) 13 5).2.envelope.output = 0 :=
  ⟨by decide, by decide,
    (writeRegister_shape (ticks 40 (writeRegister construct 13 5).2) 5 (by decide)).2.2.1,
    by
      have h := (writeRegister_shape (ticks 40 (writeRegister construct 13 5).2) 5
        (by decide)).2.2.2.2.1
      simpa using h⟩

/-- C5: what `reset()` leaves behind after a shape-register write: register 13
is zeroed and the envelope counters are reinitialised, while the four shape
flags keep the values decoded from the earlier write. -/
theorem reset_after_shape_write :
    ((reset (writeRegister construct 13 0x0F).2).registers 13).val = 0 ∧
    (reset (writeRegister construct 13 0x0F).2).envelope.output = 15 ∧
    (reset (writeRegister construct 13 0x0F).2).envelope.continueFlag = true ∧
    (reset (writeRegister construct 13 0x0F).2).envelope.attack = true ∧
    (reset (writeRegister construct 13 0x0F).2).envelope.alternate = true ∧
    (reset (writeRegister construct 13 0x0F).2).envelope.hold = true := by
  decide

/-! ## Noise generator -/

/-- C6: in every state reachable from construction by `reset()`, successful
`writeRegister` calls and `generateSample()` calls, the noise shift register
satisfies `1 ≤ lfsr < 2^17` and the noise output is 0 or 1. -/
theorem reachable_noise_lfsr (s : YM2149Emulator) (hs : Reachable s) :
    1 ≤ s.noise.lfsr ∧ s.noise.lfsr < 2 ^ 17 ∧ (s.noise.output = 0 ∨ s.noise.output = 1) := by
  induction hs with
  | construct => decide
  | reset _ _ => exact ⟨le_refl 1, by norm_num [reset], Or.inl rfl⟩
  | write register value _ _ ih =>
    obtain ⟨h1, h2, _⟩ := writeRegister_noise _ register value
    rw [h1, h2]
    exact ih
  | sample _ ih => exact updateNoise_inv _ ih

theorem reachable_noise_lfsr_witness :
    Reachable (generateSample (writeRegister construct 6 0).2).state ∧
      (generateSample (writeRegister construct 6 0).2).state.noise.lfsr = 65536 ∧
      1 ≤ (generateSample (writeRegister construct 6 0).2).state.noise.lfsr :=
  ⟨Reachable.sample (Reachable.write 6 0 Reachable.construct rfl), by decide,
    (reachable_noise_lfsr _
      (Reachable.sample (Reachable.write 6 0 Reachable.construct rfl))).1⟩

/-! ## Envelope generator -/

/-- C7: with envelope period `P ≥ 1`, after a write to register 13 of a byte
with the attack bit set and the continue bit clear, followed by `n` calls of
`generateSample()`: the envelope is not holding while `n < 32 * P`, and for
every `n ≥ 32 * P` it is holding with output 31 (so the output is the same for
all such `n`). -/
theorem envelope_attack_oneshot (s : YM2149Emulator) (v : Nat) (hv : v < 256)
    (hbits : v &&& 0x0C = 0x04) (hP : 1 ≤ s.envelope.period) (n : Nat) :
    (writeRegister s 13 (v : Int)).1 = Except.ok () ∧
    (writeRegister s 13 (v : Int)).2.envelope.period = s.envelope.period ∧
    (n < 32 * s.envelope.period → (envelopeAfter s v n).holding = false) ∧
    (32 * s.envelope.period ≤ n →
      (envelopeAfter s v n).holding = true ∧ (envelopeAfter s v n).output = 31) := by
  have h2 : v.testBit 2 = true := by
    rw [testBit_of_and_eq v 0x0C 0x04 2 hbits (by decide)]
    decide
  have h3 : v.testBit 3 = false := by
    rw [testBit_of_and_eq v 0x0C 0x04 3 hbits (by decide)]
    decide
  have hw := writeRegister_shape_envelope s v hv
  rw [h2, h3] at hw
  have hcl := updateEnvelope_iterate_attack_oneshot s.envelope.period s.envelope.shape
    (v.testBit 1) (v.testBit 0) hP n
  unfold envelopeAfter
  rw [ticks_envelope, hw]
  simp only [if_true] at hcl ⊢
  rw [hcl]
  refine ⟨rfl, trivial, ?_, ?_⟩
  · intro hn
    rw [if_pos hn]
  · intro hn
    rw [if_neg (by omega)]
    exact ⟨rfl, rfl⟩

theorem envelope_attack_oneshot_witness :
    (4 < 256) ∧ (4 &&& 0x0C = 0x04) ∧ 1 ≤ (writeRegister construct 11 1).2.envelope.period ∧
      (writeRegister construct 11 1).2.envelope.period = 2 ∧
      (envelopeAfter (writeRegister construct 11 1).2 4 63).holding = false ∧
      (envelopeAfter (writeRegister construct 11 1).2 4 64).holding = true ∧
      (envelopeAfter (writeRegister construct 11 1).2 4 64).output = 31 :=
  ⟨by decide, by decide, by decide, by decide,
    (envelope_attack_oneshot (writeRegister construct 11 1).2 4 (by decide) (by decide)
      (by decide) 63).2.2.1 (by decide),
    (envelope_attack_oneshot (writeRegister construct 11 1).2 4 (by decide) (by decide)
      (by decide) 64).2.2.2 (by decide)⟩

/-- C8: with envelope period `P ≥ 1`, after a write to register 13 of a byte
with the continue and alternate bits set, followed by `n` calls of
`generateSample()`: the envelope never holds, its phase stays in 0..31 and
moves by at most 1 per tick, phase and attack flag repeat with period `64 * P`,
and every `64 * P` consecutive ticks contain a tick with phase 0 and a tick
with phase 31. -/
theorem envelope_triangle (s : YM2149Emulator) (v : Nat) (hv : v < 256)
    (hbits : v &&& 0x0A = 0x0A) (hP : 1 ≤ s.envelope.period) (n : Nat) :
    (envelopeAfter s v n).holding = false ∧
    0 ≤ (envelopeAfter s v n).phase ∧ (envelopeAfter s v n).phase ≤ 31 ∧
    (envelopeAfter s v (n + 1)).phase - (envelopeAfter s v n).phase ≤ 1 ∧
    (envelopeAfter s v n).phase - (envelopeAfter s v (n + 1)).phase ≤ 1 ∧
    (envelopeAfter s v (n + 64 * s.envelope.period)).phase = (envelopeAfter s v n).phase ∧
    (envelopeAfter s v (n + 64 * s.envelope.period)).attack = (envelopeAfter s v n).attack ∧
    (∃ m, n ≤ m ∧ m < n + 64 * s.envelope.period ∧ (envelopeAfter s v m).phase = 0) ∧
    (∃ m, n ≤ m ∧ m < n + 64 * s.envelope.period ∧ (envelopeAfter s v m).phase = 31) := by
  have h1 : v.testBit 1 = true := by
    rw [testBit_of_and_eq v 0x0A 0x0A 1 hbits (by decide)]
    decide
  have h3 : v.testBit 3 = true := by
    rw [testBit_of_and_eq v 0x0A 0x0A 3 hbits (by decide)]
    decide
  have hw := writeRegister_shape_envelope s v hv
  rw [h1, h3] at hw
  have hP0 : 0 < s.envelope.period := hP
  have key : ∀ k, (envelopeAfter s v k).holding = false ∧
      (envelopeAfter s v k).phase =
        (triangleStep^[k / s.envelope.period] (0, v.testBit 2)).1 ∧
      (envelopeAfter s v k).attack =
        (triangleStep^[k / s.envelope.period] (0, v.testBit 2)).2 := by
    intro k
    unfold envelopeAfter
    rw [ticks_envelope, hw, updateEnvelope_iterate_triangle _ _ _ _ _ hP k]
    exact ⟨rfl, rfl, rfl⟩
  have hrange := triangleStep_iterate_range (v.testBit 2)
  have hper : (n + 64 * s.envelope.period) / s.envelope.period
      = n / s.envelope.period + 64 := Nat.add_mul_div_right n 64 hP0
  refine ⟨(key n).1, ?_, ?_, ?_, ?_, ?_, ?_, ?_, ?_⟩
  · rw [(key n).2.1]
    exact (hrange _).1
  · rw [(key n).2.1]
    exact (hrange _).2
  · rw [(key n).2.1, (key (n + 1)).2.1]
    by_cases hwr : s.envelope.period ≤ n % s.envelope.period + 1
    · rw [(succ_mod_div_wrap n _ hP0 hwr).2, Function.iterate_succ_apply']
      exact (triangleStep_range _ (hrange _)).2.2.1
    · rw [(succ_mod_div_step n _ (by omega)).2]
      omega
  · rw [(key n).2.1, (key (n + 1)).2.1]
    by_cases hwr : s.envelope.period ≤ n % s.envelope.period + 1
    · rw [(succ_mod_div_wrap n _ hP0 hwr).2, Function.iterate_succ_apply']
      exact (triangleStep_range _ (hrange _)).2.2.2
    · rw [(succ_mod_div_step n _ (by omega)).2]
      omega
  · rw [(key n).2.1, (key _).2.1, hper, triangleStep_iterate_add_64]
  · rw [(key n).2.2, (key _).2.2, hper, triangleStep_iterate_add_64]
  · obtain ⟨m, q, hm1, hm2, hm3⟩ :=
      exists_congruent_in_window n (64 * s.envelope.period) 0 (by omega)
    refine ⟨m, hm1, hm2, ?_⟩
    have hmq : m / s.envelope.period = 64 * q + 0 := by
      have e : m = s.envelope.period * (64 * q) := by
        rw [hm3]
        ring
      rw [e, Nat.mul_div_cancel_left _ hP0, Nat.add_zero]
    rw [(key m).2.1, hmq, triangleStep_iterate_mul_64]
    rfl
  · obtain ⟨m, q, hm1, hm2, hm3⟩ :=
      exists_congruent_in_window n (64 * s.envelope.period) (32 * s.envelope.period)
        (by omega)
    refine ⟨m, hm1, hm2, ?_⟩
    have hmq : m / s.envelope.period = 64 * q + 32 := by
      have e : m = s.envelope.period * (64 * q + 32) := by
        rw [hm3]
        ring
      rw [e, Nat.mul_div_cancel_left _ hP0]
    rw [(key m).2.1, hmq, triangleStep_iterate_mul_64]
    exact triangleStep_iterate_32 _

theorem envelope_triangle_witness :
    (0x0E < 256) ∧ (0x0E &&& 0x0A = 0x0A) ∧ 1 ≤ construct.envelope.period ∧
      (envelopeAfter construct 0x0E 5).holding = false ∧
      (envelopeAfter construct 0x0E (5 + 64 * construct.envelope.period)).phase =
        (envelopeAfter construct 0x0E 5).phase :=
  ⟨by decide, by decide, by decide,
    (envelope_triangle construct 0x0E (by decide) (by decide) (by decide) 5).1,
    (envelope_triangle construct 0x0E (by decide) (by decide) (by decide) 5).2.2.2.2.2.1⟩

/-! ## Tone generators and gate -/

/-- C9: for a voice with period `P ≥ 1`, counter 0 and output `o0` in {0, 1},
after `n` calls of `generateSample()` the counter is `n mod P` and the output
is `o0 XOR (floor(n / P) mod 2)`; the output changes between two consecutive
ticks exactly when the later tick number is a multiple of `P`, it is inverted
after `P` more ticks and restored after `2 * P` more ticks, and counter and
output are back at their starting values exactly at the multiples of `2 * P`. -/
theorem tone_square_wave (s : YM2149Emulator) (i : Fin 3) (hP : 1 ≤ (s.voices i).period)
    (hc : (s.voices i).counter = 0)
    (ho : (s.voices i).output = 0 ∨ (s.voices i).output = 1) (n : Nat) :
    ((ticks n s).voices i).counter = n % (s.voices i).period ∧
    ((ticks n s).voices i).output =
      (((s.voices i).output.toNat ^^^ ((n / (s.voices i).period) % 2) : Nat) : Int) ∧
    (((ticks (n + 1) s).voices i).output ≠ ((ticks n s).voices i).output ↔
      (n + 1) % (s.voices i).period = 0) ∧
    ((ticks (n + (s.voices i).period) s).voices i).output
      = 1 - ((ticks n s).voices i).output ∧
    ((ticks (n + 2 * (s.voices i).period) s).voices i).output
      = ((ticks n s).voices i).output ∧
    ((((ticks n s).voices i).counter = 0 ∧
        ((ticks n s).voices i).output = (s.voices i).output) ↔
      2 * (s.voices i).period ∣ n) := by
  have hP0 : 0 < (s.voices i).period := hP
  have key : ∀ k, (ticks k s).voices i =
      { s.voices i with
        counter := k % (s.voices i).period
        output := if (k / (s.voices i).period) % 2 = 0 then (s.voices i).output
                  else 1 - (s.voices i).output } := by
    intro k
    have h := updateTone_iterate (s.voices i).period (s.voices i).volume (s.voices i).output
      (s.voices i).envEnabled (s.voices i).noiseEnabled (s.voices i).toneEnabled hP k
    rw [ticks_voices]
    rw [← h]
    congr 1
    cases hv : s.voices i
    rw [hv] at hc
    simp only at hc
    simp [hc]
  generalize hPd : (s.voices i).period = P at *
  generalize hod : (s.voices i).output = o0 at *
  have e1 : (n + P) / P = n / P + 1 := Nat.add_div_right n hP0
  have e2 : (n + 2 * P) / P = n / P + 2 := Nat.add_mul_div_right n 2 hP0
  refine ⟨?_, ?_, ?_, ?_, ?_, ?_⟩
  · rw [key n]
  · rw [key n]
    simp only
    rcases Nat.mod_two_eq_zero_or_one (n / P) with hq | hq <;>
      rcases ho with ho | ho <;> simp [hq, ho]
  · rw [key n, key (n + 1)]
    simp only
    by_cases hw : P ≤ n % P + 1
    · obtain ⟨hm, hd⟩ := succ_mod_div_wrap n P hP0 hw
      rw [hm, hd]
      rcases Nat.mod_two_eq_zero_or_one (n / P) with hq | hq
      · have hq1 : (n / P + 1) % 2 ≠ 0 := by omega
        simp [hq, hq1]
        omega
      · have hq1 : (n / P + 1) % 2 = 0 := by omega
        simp [hq, hq1]
        omega
    · obtain ⟨hm, hd⟩ := succ_mod_div_step n P (by omega)
      rw [hm, hd]
      simp
  · rw [key n, key (n + P)]
    simp only
    rw [e1]
    rcases Nat.mod_two_eq_zero_or_one (n / P) with hq | hq
    · have hq1 : (n / P + 1) % 2 ≠ 0 := by omega
      simp [hq, hq1]
    · have hq1 : (n / P + 1) % 2 = 0 := by omega
      simp [hq, hq1]
  · rw [key n, key (n + 2 * P)]
    simp only
    rw [e2]
    have hq1 : (n / P + 2) % 2 = (n / P) % 2 := by omega
    rw [hq1]
  · rw [key n]
    simp only
    have hd := Nat.div_add_mod n P
    constructor
    · rintro ⟨hm, hout⟩
      have hq : (n / P) % 2 = 0 := by
        by_contra hne
        rw [if_neg hne] at hout
        omega
      refine ⟨n / P / 2, ?_⟩
      have hq2 := Nat.div_add_mod (n / P) 2
      rw [hm, Nat.add_zero] at hd
      rw [hq, Nat.add_zero] at hq2
      calc n = P * (n / P) := hd.symm
        _ = P * (2 * (n / P / 2)) := by rw [hq2]
        _ = 2 * P * (n / P / 2) := by ring
    · rintro ⟨j, hj⟩
      have e : n = P * (2 * j) := by
        rw [hj]
        ring
      have hm : n % P = 0 := by
        rw [e]
        exact Nat.mul_mod_right _ _
      have hq : n / P = 2 * j := by
        rw [e]
        exact Nat.mul_div_cancel_left _ hP0
      refine ⟨hm, ?_⟩
      rw [hq]
      simp

theorem tone_square_wave_witness :
    1 ≤ ((writeRegister construct 0 3).2.voices 0).period ∧
      ((writeRegister construct 0 3).2.voices 0).counter = 0 ∧
      (((writeRegister construct 0 3).2.voices 0).output = 0 ∨
        ((writeRegister construct 0 3).2.voices 0).output = 1) ∧
      ((ticks 7 (writeRegister construct 0 3).2).voices 0).counter =
        7 % ((writeRegister construct 0 3).2.voices 0).period ∧
      ((ticks 7 (writeRegister construct 0 3).2).voices 0).counter = 1 :=
  ⟨by decide, by decide, by decide,
    (tone_square_wave (writeRegister construct 0 3).2 0 (by decide) (by decide)
      (by decide) 7).1,
    by decide⟩

/-- C10: in `generateSample()` a voice whose output and the noise output are
bits adds its level to the mix exactly when (its tone is enabled and its
output after the tick is 1) or (its noise is enabled and the noise output
after the tick is 1); a voice with tone and noise both disabled adds nothing;
and the third check of the gate never changes what the first two computed. -/
theorem generateSample_gate (s : YM2149Emulator) (i : Fin 3)
    (hv : (s.voices i).output = 0 ∨ (s.voices i).output = 1)
    (hn : s.noise.output = 0 ∨ s.noise.output = 1) :
    (((generateSample s).lookups i).isSome = true ↔
      (((generateSample s).state.voices i).toneEnabled = true ∧
          ((generateSample s).state.voices i).output = 1) ∨
        (((generateSample s).state.voices i).noiseEnabled = true ∧
          (generateSample s).state.noise.output = 1)) ∧
    (((generateSample s).state.voices i).toneEnabled = false →
      ((generateSample s).state.voices i).noiseEnabled = false →
      (generateSample s).lookups i = none) ∧
    (∀ (voice : Voice) (noiseOutput : Nat),
      voiceEnabled voice noiseOutput = voiceEnabledFirstTwo voice noiseOutput) := by
  have hv' := updateTone_output_bit _ hv
  have hn' := updateNoise_output_bit _ hn
  have hg := voiceEnabled_iff _ _ hv' hn'
  refine ⟨?_, ?_, voiceEnabled_eq_firstTwo⟩
  · refine Iff.trans ?_ hg
    unfold generateSample
    simp only
    by_cases hen : voiceEnabled (updateTone (s.voices i)) (updateNoise s.noise).output = true
    · simp [hen]
    · simp [hen]
  · intro ht hno
    unfold generateSample at ht hno ⊢
    simp only at ht hno ⊢
    have hen : voiceEnabled (updateTone (s.voices i)) (updateNoise s.noise).output = false := by
      unfold voiceEnabled
      simp [ht, hno]
    simp [hen]

theorem generateSample_gate_witness :
    ((construct.voices 0).output = 0 ∨ (construct.voices 0).output = 1) ∧
      (construct.noise.output = 0 ∨ construct.noise.output = 1) ∧
      ((generateSample construct).state.voices 0).toneEnabled = true ∧
      ((generateSample construct).state.voices 0).output = 1 ∧
      ((generateSample construct).lookups 0).isSome = true :=
  ⟨by decide, by decide, by decide, by decide,
    (generateSample_gate construct 0 (by decide) (by decide)).1.mpr
      (Or.inl ⟨by decide, by decide⟩)⟩

/-! ## Register decode -/

/-- C15: after `writeRegister(7, v)` with a byte `v`, voice `i` has
`toneEnabled` exactly when bit `i` of `v` is 0 and `noiseEnabled` exactly when
bit `i + 3` of `v` is 0; bits 6 and 7 of `v` do not matter; and period, counter,
output, volume and `envEnabled` of every voice, the noise generator and the
envelope generator are unchanged. -/
theorem writeRegister_mixer (s : YM2149Emulator) (v : Nat) (hv : v < 256) (i : Fin 3) :
    (writeRegister s 7 (v : Int)).1 = Except.ok () ∧
    ((writeRegister s 7 (v : Int)).2.voices i).toneEnabled = !v.testBit i.val ∧
    ((writeRegister s 7 (v : Int)).2.voices i).noiseEnabled = !v.testBit (i.val + 3) ∧
    (writeRegister s 7 ((v % 64 : Nat) : Int)).2.voices = (writeRegister s 7 (v : Int)).2.voices ∧
    ((writeRegister s 7 (v : Int)).2.voices i).period = (s.voices i).period ∧
    ((writeRegister s 7 (v : Int)).2.voices i).counter = (s.voices i).counter ∧
    ((writeRegister s 7 (v : Int)).2.voices i).output = (s.voices i).output ∧
    ((writeRegister s 7 (v : Int)).2.voices i).volume = (s.voices i).volume ∧
    ((writeRegister s 7 (v : Int)).2.voices i).envEnabled = (s.voices i).envEnabled ∧
    (writeRegister s 7 (v : Int)).2.noise = s.noise ∧
    (writeRegister s 7 (v : Int)).2.envelope = s.envelope := by
  have hvo := writeRegister_mixer_voices s v hv
  have hvo64 := writeRegister_mixer_voices s (v % 64) (by omega)
  have h64 : ∀ j, j < 6 → (v % 64).testBit j = v.testBit j := by
    intro j hj
    have e : (64 : Nat) = 2 ^ 6 := by norm_num
    rw [e, Nat.testBit_mod_two_pow]
    simp [hj]
  refine ⟨rfl, ?_, ?_, ?_, ?_, ?_, ?_, ?_, ?_, ?_, ?_⟩
  · rw [hvo]
  · rw [hvo]
  · rw [hvo, hvo64]
    funext j
    have hj := j.isLt
    rw [h64 j.val (by omega), h64 (j.val + 3) (by omega)]
  · rw [hvo]
  · rw [hvo]
  · rw [hvo]
  · rw [hvo]
  · rw [hvo]
  · simp [writeRegister, updateInternalState]
  · simp [writeRegister, updateInternalState]

theorem writeRegister_mixer_witness :
    (0x3E < 256) ∧
      ((writeRegister construct 7 0x3E).2.voices 0).toneEnabled = true ∧
      ((writeRegister construct 7 0x3E).2.voices 1).toneEnabled = false ∧
      ((writeRegister construct 7 0x3E).2.voices 0).noiseEnabled = !(0x3E : Nat).testBit (0 + 3) :=
  ⟨by decide, by decide, by decide,
    (writeRegister_mixer construct 0x3E (by decide) 0).2.2.1⟩

/-- C16: `writeRegister(6, v)` sets the noise period to `max(1, (v & 0x1F) * 2)`
and `writeRegister(11, v)` or `writeRegister(12, v)` sets the envelope period to
`max(1, ((registers[12] << 8) | registers[11]) * 2)` of the updated register
bank; each of the three writes leaves every other field of the noise generator
and of the envelope generator as it was. -/
theorem writeRegister_noise_envelope_period (s : YM2149Emulator) (v : Nat) (hv : v < 256) :
    (writeRegister s 6 (v : Int)).2.noise =
      { s.noise with period := max 1 ((v &&& 0x1F) * 2) } ∧
    (writeRegister s 6 (v : Int)).2.envelope = s.envelope ∧
    (writeRegister s 11 (v : Int)).2.envelope =
      { s.envelope with
        period := max 1 (((((writeRegister s 11 (v : Int)).2.registers 12).val <<< 8)
          ||| ((writeRegister s 11 (v : Int)).2.registers 11).val) * 2) } ∧
    (writeRegister s 11 (v : Int)).2.noise = s.noise ∧
    (writeRegister s 12 (v : Int)).2.envelope =
      { s.envelope with
        period := max 1 (((((writeRegister s 12 (v : Int)).2.registers 12).val <<< 8)
          ||| ((writeRegister s 12 (v : Int)).2.registers 11).val) * 2) } ∧
    (writeRegister s 12 (v : Int)).2.noise = s.noise ∧
    ((writeRegister s 11 (v : Int)).2.registers 11).val = v ∧
    ((writeRegister s 11 (v : Int)).2.registers 12) = s.registers 12 ∧
    ((writeRegister s 12 (v : Int)).2.registers 12).val = v ∧
    ((writeRegister s 12 (v : Int)).2.registers 11) = s.registers 11 := by
  have hb := toByte_natCast v hv
  refine ⟨?_, ?_, ?_, ?_, ?_, ?_, ?_, ?_, ?_, ?_⟩ <;>
    simp [writeRegister, updateInternalState, hb]

theorem writeRegister_noise_envelope_period_witness :
    (0x25 < 256) ∧
      (writeRegister construct 6 0x25).2.noise.period = 10 ∧
      (writeRegister construct 6 0x25).2.noise =
        { construct.noise with period := max 1 ((0x25 &&& 0x1F) * 2) } :=
  ⟨by decide, by decide,
    (writeRegister_noise_envelope_period construct 0x25 (by decide)).1⟩

/-- C18 (counterexample): after `writeRegister(13, 0)`, whose attack bit is
clear, the envelope output is 15, not 31. -/
theorem writeRegister_shape_output_not_31 :
    (0 : Nat) < 256 ∧ (0 : Nat).testBit 2 = false ∧
      (writeRegister construct 13 ((0 : Nat) : Int)).2.envelope.output = 15 ∧
      (writeRegister construct 13 ((0 : Nat) : Int)).2.envelope.output ≠ 31 := by
  decide

/-- C18 (amended): immediately after `writeRegister(13, v)` with a byte `v`
the envelope output is 15 when the attack bit (bit 2) of `v` is clear and 0
when it is set, and phase, counter and holding are cleared; the state before
the write is arbitrary, so this also holds when `v` is the value register 13
already stores. -/
theorem writeRegister_shape_output (s : YM2149Emulator) (v : Nat) (hv : v < 256) :
    (v.testBit 2 = false → (writeRegister s 13 (v : Int)).2.envelope.output = 15) ∧
    (v.testBit 2 = true → (writeRegister s 13 (v : Int)).2.envelope.output = 0) ∧
    (writeRegister s 13 (v : Int)).2.envelope.phase = 0 ∧
    (writeRegister s 13 (v : Int)).2.envelope.counter = 0 ∧
    (writeRegister s 13 (v : Int)).2.envelope.holding = false := by
  rw [writeRegister_shape_envelope s v hv]
  refine ⟨?_, ?_, rfl, rfl, rfl⟩
  · intro h
    simp [h]
  · intro h
    simp [h]

theorem writeRegister_shape_output_witness :
    (9 < 256) ∧ (9 : Nat).testBit 2 = false ∧
      ((writeRegister construct 13 9).2.registers 13).val = 9 ∧
      (writeRegister (writeRegister construct 13 9).2 13 ((9 : Nat) : Int)).2.envelope.output
        = 15 :=
  ⟨by decide, by decide, by decide,
    (writeRegister_shape_output (writeRegister construct 13 9).2 9 (by decide)).1 (by decide)⟩

/-- C19: `reset()` is idempotent: resetting twice leaves the same state as
resetting once. -/
theorem reset_idempotent (s : YM2149Emulator) : reset (reset s) = reset s := by
  rfl

/-- C20: a `writeRegister(index, value)` with `index` in 0..15 succeeds, stores
`value mod 256` in `registers[index]`, leaves the other fifteen registers as
they were, and every register then holds a value in 0..255. -/
theorem writeRegister_registers (s : YM2149Emulator) (register value : Int)
    (h0 : 0 ≤ register) (h15 : register ≤ 15) :
    (writeRegister s register value).1 = Except.ok () ∧
    (∀ r : Fin 16, (r.val : Int) = register →
      (((writeRegister s register value).2.registers r).val : Int) = value % 256) ∧
    (∀ r : Fin 16, (r.val : Int) ≠ register →
      (writeRegister s register value).2.registers r = s.registers r) ∧
    (∀ r : Fin 16, ((writeRegister s register value).2.registers r).val ≤ 255) := by
  have hn : ¬ (register < 0 ∨ register > 15) := by omega
  unfold writeRegister
  simp only [hn, dif_neg, not_false_eq_true, updateInternalState_registers]
  refine ⟨trivial, ?_, ?_, ?_⟩
  · intro r hr
    have e : r = ⟨register.toNat, by omega⟩ := by
      apply Fin.ext
      simp only
      omega
    rw [e, Function.update_same]
    unfold toByte
    simp only
    omega
  · intro r hr
    apply Function.update_noteq
    intro e
    apply hr
    rw [e]
    simp only
    omega
  · intro r
    have := ((Function.update s.registers ⟨register.toNat, by omega⟩ (toByte value)) r).isLt
    omega

theorem writeRegister_registers_witness :
    ((0 : Int) ≤ 9) ∧ ((9 : Int) ≤ 15) ∧
      (((writeRegister construct 9 (-1)).2.registers 9).val : Int) = 255 ∧
      (writeRegister construct 9 (-1)).2.registers 8 = construct.registers 8 :=
  ⟨by decide, by decide,
    (writeRegister_registers construct 9 (-1) (by decide) (by decide)).2.1 9 (by decide),
    (writeRegister_registers construct 9 (-1) (by decide) (by decide)).2.2.1 8 (by decide)⟩

/-! ## Envelope range -/

/-- C17: in every state reachable from construction by `reset()`, successful
`writeRegister` calls and `generateSample()` calls, the envelope satisfies
`0 ≤ phase ≤ 31` and `0 ≤ output ≤ 31`. -/
theorem reachable_envelope_range (s : YM2149Emulator) (hs : Reachable s) :
    0 ≤ s.envelope.phase ∧ s.envelope.phase ≤ 31 ∧
      0 ≤ s.envelope.output ∧ s.envelope.output ≤ 31 := by
  induction hs with
  | construct => decide
  | reset _ _ => simp [reset]
  | write register value _ _ ih => exact writeRegister_envelope_inv _ register value ih
  | sample _ ih => exact updateEnvelope_inv _ ih

theorem reachable_envelope_range_witness :
    Reachable (ticks 20 envelopeRampA) ∧ (ticks 20 envelopeRampA).envelope.output ≤ 31 :=
  ⟨reachable_ticks _
      (Reachable.write 13 0x04 (Reachable.write 8 0x10 Reachable.construct rfl) rfl) 20,
    (reachable_envelope_range _
      (reachable_ticks _
        (Reachable.write 13 0x04 (Reachable.write 8 0x10 Reachable.construct rfl) rfl)
        20)).2.2.2⟩

/-! ## Batch processing -/

/-- C14 (counterexample): `processSamples(new Float64Array(1), 2)` on a new
emulator after `writeRegister(8, 15)`: `buffer[0]` holds the value of the first
`generateSample()` call, but the assignment to `buffer[1]` is dropped, so
`buffer[1]` reads `undefined` and not the value of the second call. -/
theorem processSamples_drops_write_past_length :
    (zeroedFloat64Array 1).length = some 1 ∧
    (processSamples (writeRegister construct 8 15).2 (zeroedFloat64Array 1) 2).2.read 0
      = Cell.number (generateSampleValue (writeRegister construct 8 15).2) ∧
    (processSamples (writeRegister construct 8 15).2 (zeroedFloat64Array 1) 2).2.read 1
      = Cell.undefined ∧
    (processSamples (writeRegister construct 8 15).2 (zeroedFloat64Array 1) 2).2.read 1
      ≠ Cell.number (generateSampleValue (ticks 1 (writeRegister construct 8 15).2)) := by
  obtain ⟨_, h2, _, h4⟩ :=
    processSamples_cells (writeRegister construct 8 15).2 (zeroedFloat64Array 1) 2
  have hr : ∀ j, (processSamples (writeRegister construct 8 15).2
      (zeroedFloat64Array 1) 2).2.inRange j = (zeroedFloat64Array 1).inRange j := by
    intro j
    unfold OutputBuffer.inRange
    rw [h2]
  have h1 : (processSamples (writeRegister construct 8 15).2 (zeroedFloat64Array 1) 2).2.read 1
      = Cell.undefined := by
    unfold OutputBuffer.read
    rw [hr 1]
    rfl
  refine ⟨rfl, ?_, h1, ?_⟩
  · unfold OutputBuffer.read
    rw [hr 0, h4 0]
    rfl
  · rw [h1]
    intro h
    cases h

/-- C14 (amended): `processSamples(buffer, N)` leaves the emulator in the state
reached by `N` successive `generateSample()` calls and keeps the buffer's
length; for every index `i < N` that is in the buffer's range (any `i` for a
plain `Array`, `i` below the length for a typed array) `buffer[i]` then holds
the value the `(i + 1)`-th of those calls returns, as the buffer's element type
stores it; every other read of the buffer, at `i ≥ N` or outside the range of a
typed array, yields what it yielded before. -/
theorem processSamples_spec (s : YM2149Emulator) (outputBuffer : OutputBuffer) (N : Nat) :
    (processSamples s outputBuffer N).1 = ticks N s ∧
    (processSamples s outputBuffer N).2.length = outputBuffer.length ∧
    ∀ i, (processSamples s outputBuffer N).2.read i =
      if i < N ∧ outputBuffer.inRange i = true then
        Cell.number (outputBuffer.convert (generateSampleValue (ticks i s)))
      else outputBuffer.read i := by
  obtain ⟨h1, h2, _, h4⟩ := processSamples_cells s outputBuffer N
  refine ⟨h1, h2, ?_⟩
  intro i
  have hr : (processSamples s outputBuffer N).2.inRange i = outputBuffer.inRange i := by
    unfold OutputBuffer.inRange
    rw [h2]
  unfold OutputBuffer.read
  rw [hr, h4 i]
  by_cases hin : outputBuffer.inRange i = true
  · simp only [hin, and_true, if_true]
  · simp only [hin, and_false, Bool.false_eq_true, if_false]

/-! ## Sample values -/

/-- C13: in every state, the `generateSample()` call that follows `reset()`
returns exactly 0, and after `reset()` all 16 registers are 0. -/
theorem reset_then_sample_silent (s : YM2149Emulator) :
    generateSampleValue (reset s) = some 0 ∧ ∀ r : Fin 16, ((reset s).registers r).val = 0 := by
  refine ⟨?_, fun r => rfl⟩
  have hl : ∀ i, (generateSample (reset s)).lookups i = some 0 := by
    intro i
    rw [generateSample_lookups_of_voice]
    simp [reset, updateTone, voiceEnabled, volumeIndex]
  unfold generateSampleValue mixedSum
  rw [hl 0, hl 1, hl 2]
  simp [addVolume, volumeTable_zero, normalizeAndClip]

/-- C12: in the end-to-end scenario the four writes succeed, voice A's output
is 0 after each of the first 99 `generateSample()` calls and 1 after the 100th,
the 101st call reads only `volumeTable[15] = 0.5`, its normalised sum `0.5 / 3`
does not exceed 1 (no soft clip), and it returns `(0.5 / 3) * 0.3 = 0.05`. -/
theorem scenario_tone_a (k : Fin 99) :
    (writeRegister construct 0 100).1 = Except.ok () ∧
    (writeRegister (writeRegister construct 0 100).2 1 0).1 = Except.ok () ∧
    (writeRegister (writeRegister (writeRegister construct 0 100).2 1 0).2 8 15).1
      = Except.ok () ∧
    (writeRegister (writeRegister (writeRegister (writeRegister construct 0 100).2 1 0).2
      8 15).2 7 0x3E).1 = Except.ok () ∧
    ((ticks (k.val + 1) scenarioToneA).voices 0).output = 0 ∧
    ((ticks 100 scenarioToneA).voices 0).output = 1 ∧
    (generateSample (ticks 100 scenarioToneA)).lookups 0 = some 15 ∧
    (generateSample (ticks 100 scenarioToneA)).lookups 1 = none ∧
    (generateSample (ticks 100 scenarioToneA)).lookups 2 = none ∧
    volumeTable 15 = some (1 / 2) ∧
    mixedSum (generateSample (ticks 100 scenarioToneA)).lookups = some (1 / 2) ∧
    ¬ ((1 / 2 : ℝ) / 3 > 1) ∧
    generateSampleValue (ticks 100 scenarioToneA) = some ((1 / 2) / 3 * 0.3) ∧
    generateSampleValue (ticks 100 scenarioToneA) = some 0.05 := by
  obtain ⟨hv0, hv1, hv2⟩ := scenarioToneA_voices
  have key0 : ∀ n, (ticks n scenarioToneA).voices 0 =
      { counter := n % 100, output := if (n / 100) % 2 = 0 then 0 else 1 - 0, period := 100,
        volume := 15, envEnabled := false, noiseEnabled := false, toneEnabled := true } := by
    intro n
    rw [ticks_voices, hv0]
    exact updateTone_iterate 100 15 0 false false true (by omega) n
  have key1 : ∀ n, ((ticks n scenarioToneA).voices 1).toneEnabled = false ∧
      ((ticks n scenarioToneA).voices 1).noiseEnabled = false := by
    intro n
    rw [ticks_voices, hv1, updateTone_iterate 1 0 0 false false false (by omega) n]
    exact ⟨rfl, rfl⟩
  have key2 : ∀ n, ((ticks n scenarioToneA).voices 2).toneEnabled = false ∧
      ((ticks n scenarioToneA).voices 2).noiseEnabled = false := by
    intro n
    rw [ticks_voices, hv2, updateTone_iterate 1 0 0 false false false (by omega) n]
    exact ⟨rfl, rfl⟩
  have hl0 : (generateSample (ticks 100 scenarioToneA)).lookups 0 = some 15 := by
    rw [generateSample_lookups_of_voice, key0 100]
    simp [updateTone, voiceEnabled, volumeIndex]
  have hl1 : (generateSample (ticks 100 scenarioToneA)).lookups 1 = none := by
    exact generateSample_lookups_both_disabled _ 1 (key1 100).1 (key1 100).2
  have hl2 : (generateSample (ticks 100 scenarioToneA)).lookups 2 = none := by
    exact generateSample_lookups_both_disabled _ 2 (key2 100).1 (key2 100).2
  have hmix : mixedSum (generateSample (ticks 100 scenarioToneA)).lookups = some (1 / 2) := by
    unfold mixedSum
    rw [hl0, hl1, hl2]
    simp [addVolume, volumeTable_fifteen]
  have hval : generateSampleValue (ticks 100 scenarioToneA) = some ((1 / 2) / 3 * 0.3) := by
    unfold generateSampleValue
    rw [hmix]
    simp only [Option.map_some', normalizeAndClip]
    rw [if_neg (by norm_num)]
  refine ⟨rfl, rfl, rfl, rfl, ?_, ?_, hl0, hl1, hl2, volumeTable_fifteen, hmix, by norm_num,
    hval, ?_⟩
  · rw [key0]
    have hk := k.isLt
    have hq : (k.val + 1) / 100 = 0 := by omega
    simp [hq]
  · rw [key0]
    simp
  · rw [hval]
    norm_num

set_option maxRecDepth 100000 in
/-- C11: the reachable state sixteen `generateSample()` calls after
`writeRegister(8, 0x10)` and `writeRegister(13, 0x04)` on a new emulator: in the
seventeenth call the envelope output is 17, voice A reads `volumeTable[17]`,
which is outside the 16-entry table, and the value returned is not a number. -/
theorem envelope_ramp_sample_undefined :
    Reachable (ticks 16 envelopeRampA) ∧
    (generateSample (ticks 16 envelopeRampA)).state.envelope.output = 17 ∧
    (generateSample (ticks 16 envelopeRampA)).lookups 0 = some 17 ∧
    volumeTable 17 = none ∧
    generateSampleValue (ticks 16 envelopeRampA) = none := by
  have hl : (generateSample (ticks 16 envelopeRampA)).lookups 0 = some 17 := by decide
  refine ⟨?_, by decide, hl, volumeTable_outside 17 (by norm_num), ?_⟩
  · exact reachable_ticks _
      (Reachable.write 13 0x04 (Reachable.write 8 0x10 Reachable.construct rfl) rfl) 16
  · unfold generateSampleValue mixedSum
    rw [hl]
    have h17 : addVolume (some 0) (some 17) = none := by
      simp [addVolume, volumeTable_outside 17 (by norm_num)]
    rw [h17, addVolume_none, addVolume_none]
    rfl

/-! ## Table reads and clipping -/

set_option maxRecDepth 100000 in
/-- C21: a sequence of successful register writes and `generateSample()` calls
on a new emulator after which `generateSample()` reads `volumeTable` outside
its 16 entries: after `writeRegister(8, 0x10)`, `writeRegister(13, 0x04)` and
sixteen `generateSample()` calls, the seventeenth call reads index 17 for
voice A, which has `envEnabled` set and so indexes the table with
`envelope.output`. -/
theorem exists_lookup_outside_table :
    ∃ (calls : List Call) (i : Fin 3) (idx : Int),
      calls = [Call.write 8 0x10, Call.write 13 0x04] ++ List.replicate 16 Call.sample ∧
      (∀ c ∈ calls, isSampleOrValidWrite c = true) ∧
      (generateSample (runCalls calls construct)).lookups i = some idx ∧
      16 ≤ idx ∧ idx ≤ 31 ∧ volumeTable idx = none ∧
      ((runCalls calls construct).voices i).envEnabled = true ∧
      idx = (generateSample (runCalls calls construct)).state.envelope.output := by
  refine ⟨[Call.write 8 0x10, Call.write 13 0x04] ++ List.replicate 16 Call.sample, 0, 17,
    rfl, by decide, by decide, by decide, by decide, volumeTable_outside 17 (by decide),
    by decide, by decide⟩

/-- C27: in a reachable state in which every voice with `envEnabled` reads an
envelope output of at most 15, `generateSample()` reads only table entries, all
of which lie in `[0, 0.5]` (entry 0 is 0 and entry 15 is 0.5); the normalised
sum is at most 0.5, so the soft-clip branch `mixed > 1` is not taken, and the
value returned is the sum of the contributing voices' table values divided by
3 and multiplied by 0.3, a number in `[0, 0.15]`. -/
theorem soft_clip_not_taken_in_bounds (s : YM2149Emulator) (hs : Reachable s)
    (henv : ∀ i : Fin 3, (s.voices i).envEnabled = true →
      (generateSample s).state.envelope.output ≤ 15) :
    (∀ idx : Int, 0 ≤ idx → idx ≤ 15 → ∃ x, volumeTable idx = some x ∧ 0 ≤ x ∧ x ≤ 1 / 2) ∧
    volumeTable 0 = some 0 ∧ volumeTable 15 = some (1 / 2) ∧
    (∀ (i : Fin 3) (idx : Int), (generateSample s).lookups i = some idx → 0 ≤ idx ∧ idx ≤ 15) ∧
    ∃ m : ℝ,
      mixedSum (generateSample s).lookups = some m ∧
      m = tableValueOrZero ((generateSample s).lookups 0)
          + tableValueOrZero ((generateSample s).lookups 1)
          + tableValueOrZero ((generateSample s).lookups 2) ∧
      m / 3 ≤ 1 / 2 ∧ ¬ (m / 3 > 1) ∧
      generateSampleValue s = some (m / 3 * 0.3) ∧
      0 ≤ m / 3 * 0.3 ∧ m / 3 * 0.3 ≤ 0.15 := by
  have hb := generateSample_lookup_in_bounds s hs henv
  have h0 := tableValueOrZero_bounds _ (hb 0)
  have h1 := tableValueOrZero_bounds _ (hb 1)
  have h2 := tableValueOrZero_bounds _ (hb 2)
  have hsum : mixedSum (generateSample s).lookups =
      some (0 + tableValueOrZero ((generateSample s).lookups 0)
        + tableValueOrZero ((generateSample s).lookups 1)
        + tableValueOrZero ((generateSample s).lookups 2)) := by
    unfold mixedSum
    rw [addVolume_in_bounds _ _ (hb 0), addVolume_in_bounds _ _ (hb 1),
      addVolume_in_bounds _ _ (hb 2)]
  refine ⟨volumeTable_bounds, volumeTable_zero, volumeTable_fifteen, hb, _, hsum, by ring, ?_,
    ?_, ?_, ?_, ?_⟩
  · linarith [h0.2, h1.2, h2.2]
  · linarith [h0.2, h1.2, h2.2]
  · unfold generateSampleValue
    rw [hsum]
    simp only [Option.map_some', normalizeAndClip]
    rw [if_neg (by linarith [h0.2, h1.2, h2.2])]
  · linarith [h0.1, h1.1, h2.1]
  · linarith [h0.2, h1.2, h2.2]

theorem soft_clip_not_taken_in_bounds_witness :
    Reachable scenarioToneA ∧
      (∀ i : Fin 3, (scenarioToneA.voices i).envEnabled = true →
        (generateSample scenarioToneA).state.envelope.output ≤ 15) ∧
      ∃ m : ℝ, generateSampleValue scenarioToneA = some (m / 3 * 0.3) ∧ m / 3 * 0.3 ≤ 0.15 :=
  ⟨Reachable.write 7 0x3E (Reachable.write 8 15 (Reachable.write 1 0
      (Reachable.write 0 100 Reachable.construct rfl) rfl) rfl) rfl,
    by decide,
    by
      obtain ⟨_, _, _, _, m, _, _, _, _, hval, _, hle⟩ :=
        soft_clip_not_taken_in_bounds scenarioToneA
          (Reachable.write 7 0x3E (Reachable.write 8 15 (Reachable.write 1 0
            (Reachable.write 0 100 Reachable.construct rfl) rfl) rfl) rfl)
          (by decide)
      exact ⟨m, hval, hle⟩⟩

/-! ## Noise period -/

/-- C22: iterating the shift-register step of `updateNoise()` from the seed 1,
the state is 1 again after `n` steps exactly when `n` is a multiple of
`2^17 - 1 = 131071`; and after `reset()`, in any state, the `lfsr` field is 1
after `n` calls of `generateSample()` exactly when 131071 divides `n`, so it
first returns to 1 on the 131071st call. -/
theorem lfsr_full_period (n : Nat) :
    (lfsrStep^[n] 1 = 1 ↔ 131071 ∣ n) ∧
    (∀ s : YM2149Emulator, (ticks n (reset s)).noise.lfsr = lfsrStep^[n] 1) ∧
    (∀ s : YM2149Emulator, (ticks n (reset s)).noise.lfsr = 1 ↔ 131071 ∣ n) ∧
    (∀ l : Nat, (updateNoise { counter := 0, output := 0, period := 1, lfsr := l }).lfsr
      = lfsrStep l) := by
  have hn : ∀ s : YM2149Emulator, (ticks n (reset s)).noise.lfsr = lfsrStep^[n] 1 := by
    intro s
    rw [ticks_noise]
    exact (updateNoise_iterate_after_reset n).1
  refine ⟨lfsrStep_iterate_eq_one_iff n, hn, ?_, fun l => rfl⟩
  intro s
  rw [hn s]
  exact lfsrStep_iterate_eq_one_iff n

/-! ## Envelope shapes -/

/-- C23: with envelope period `P ≥ 1`, after a write to register 13 of a byte
with the attack and continue bits both clear, followed by `n` calls of
`generateSample()`: the envelope output is 15 and the envelope is not holding
while `n < P`, and the output is 0 and the envelope is holding for every
`n ≥ P`; the output is never one of the levels 14..1. -/
theorem envelope_decay_oneshot (s : YM2149Emulator) (v : Nat) (hv : v < 256)
    (hbits : v &&& 0x0C = 0) (hP : 1 ≤ s.envelope.period) (n : Nat) :
    (writeRegister s 13 (v : Int)).1 = Except.ok () ∧
    (n < s.envelope.period →
      (envelopeAfter s v n).output = 15 ∧ (envelopeAfter s v n).holding = false) ∧
    (s.envelope.period ≤ n →
      (envelopeAfter s v n).output = 0 ∧ (envelopeAfter s v n).holding = true) ∧
    ((envelopeAfter s v n).output = 15 ∨ (envelopeAfter s v n).output = 0) := by
  have h2 : v.testBit 2 = false := by
    rw [testBit_of_and_eq v 0x0C 0 2 hbits (by decide)]
    decide
  have h3 : v.testBit 3 = false := by
    rw [testBit_of_and_eq v 0x0C 0 3 hbits (by decide)]
    decide
  have hw := writeRegister_shape_envelope s v hv
  rw [h2, h3] at hw
  have hcl := updateEnvelope_iterate_decay_oneshot s.envelope.period s.envelope.shape
    (v.testBit 1) (v.testBit 0) hP n
  unfold envelopeAfter
  rw [ticks_envelope, hw]
  simp only [Bool.false_eq_true, if_false] at hcl ⊢
  rw [hcl]
  refine ⟨rfl, ?_, ?_, ?_⟩
  · intro hn
    rw [if_pos hn]
    exact ⟨rfl, rfl⟩
  · intro hn
    rw [if_neg (by omega)]
    exact ⟨rfl, rfl⟩
  · by_cases hn : n < s.envelope.period
    · rw [if_pos hn]
      exact Or.inl rfl
    · rw [if_neg hn]
      exact Or.inr rfl

theorem envelope_decay_oneshot_witness :
    (1 < 256) ∧ (1 &&& 0x0C = 0) ∧
      (writeRegister construct 11 2).2.envelope.period = 4 ∧
      (envelopeAfter (writeRegister construct 11 2).2 1 3).output = 15 ∧
      (envelopeAfter (writeRegister construct 11 2).2 1 3).holding = false ∧
      (envelopeAfter (writeRegister construct 11 2).2 1 4).output = 0 ∧
      (envelopeAfter (writeRegister construct 11 2).2 1 4).holding = true :=
  ⟨by decide, by decide, by decide,
    ((envelope_decay_oneshot (writeRegister construct 11 2).2 1 (by decide) (by decide)
      (by decide) 3).2.1 (by decide)).1,
    ((envelope_decay_oneshot (writeRegister construct 11 2).2 1 (by decide) (by decide)
      (by decide) 3).2.1 (by decide)).2,
    ((envelope_decay_oneshot (writeRegister construct 11 2).2 1 (by decide) (by decide)
      (by decide) 4).2.2.1 (by decide)).1,
    ((envelope_decay_oneshot (writeRegister construct 11 2).2 1 (by decide) (by decide)
      (by decide) 4).2.2.1 (by decide)).2⟩

/-- C24: in every state reachable from construction by `reset()`, successful
`writeRegister` calls and `generateSample()` calls, a holding envelope has its
continue flag clear; so an envelope whose continue flag is set is not
holding. -/
theorem reachable_holding_continue (s : YM2149Emulator) (hs : Reachable s) :
    (s.envelope.holding = true → s.envelope.continueFlag = false) ∧
    (s.envelope.continueFlag = true → s.envelope.holding = false) := by
  have key : HoldingInv s.envelope := by
    induction hs with
    | construct =>
      intro h
      rfl
    | reset _ _ =>
      intro h
      simp [reset] at h
    | write register value _ _ ih => exact writeRegister_holdingInv _ register value ih
    | sample _ ih => exact updateEnvelope_holdingInv _ ih
  refine ⟨key, ?_⟩
  intro hc
  cases hh : s.envelope.holding
  · rfl
  · rw [key hh] at hc
    exact absurd hc (by decide)

set_option maxRecDepth 100000 in
theorem reachable_holding_continue_witness :
    Reachable (ticks 40 envelopeRampA) ∧
      (ticks 40 envelopeRampA).envelope.holding = true ∧
      (ticks 40 envelopeRampA).envelope.continueFlag = false :=
  ⟨reachable_ticks _
      (Reachable.write 13 0x04 (Reachable.write 8 0x10 Reachable.construct rfl) rfl) 40,
    by decide,
    (reachable_holding_continue _
      (reachable_ticks _
        (Reachable.write 13 0x04 (Reachable.write 8 0x10 Reachable.construct rfl) rfl)
        40)).1 (by decide)⟩

/-- C26: after `reset()`, in any state, register 7 holds 0 and every voice has
`noiseEnabled = false`; the call `writeRegister(7, 0)` then succeeds, leaves
the register bank as it is, and sets `noiseEnabled` of every voice to true, so
the state changes although the stored value does not. -/
theorem reset_not_decode_of_registers (s : YM2149Emulator) :
    ((reset s).registers 7).val = 0 ∧
    (∀ i : Fin 3, ((reset s).voices i).noiseEnabled = false) ∧
    (writeRegister (reset s) 7 0).1 = Except.ok () ∧
    (writeRegister (reset s) 7 0).2.registers = (reset s).registers ∧
    (∀ i : Fin 3, ((writeRegister (reset s) 7 0).2.voices i).noiseEnabled = true) ∧
    (writeRegister (reset s) 7 0).2 ≠ reset s := by
  have hvo := writeRegister_mixer_voices (reset s) 0 (by decide)
  have hvo' : (writeRegister (reset s) 7 0).2.voices = fun i =>
      { (reset s).voices i with
        toneEnabled := !(0 : Nat).testBit i.val
        noiseEnabled := !(0 : Nat).testBit (i.val + 3) } := hvo
  have hne : ∀ i : Fin 3, ((writeRegister (reset s) 7 0).2.voices i).noiseEnabled = true := by
    intro i
    rw [hvo']
    simp
  refine ⟨rfl, fun i => rfl, rfl, ?_, hne, ?_⟩
  · funext r
    simp only [writeRegister, updateInternalState_registers]
    have h7 : ¬ ((7 : Int) < 0 ∨ (7 : Int) > 15) := by decide
    simp only [h7, dif_neg, not_false_eq_true]
    by_cases hr : r = 7
    · subst hr
      rfl
    · exact Function.update_noteq hr _ _
  · intro heq
    have h0 := hne 0
    rw [heq] at h0
    simp [reset] at h0

/-! ## Hold bit -/

/-- C25: take two sequences of `reset()`, `writeRegister` and
`generateSample()` calls on a new emulator that are the same call by call,
except that values written to register 13 may differ in bit 0. After any number
`k` of calls the two emulators have equal voices, noise generator and envelope
fields other than the stored `hold` flag, and a `generateSample()` call made at
that point reads the same table entries and returns the same value in both. -/
theorem hold_bit_has_no_effect (calls1 calls2 : List Call)
    (hc : List.Forall₂ SameUpToHoldBit calls1 calls2) (k : Nat) :
    generateSampleValue (runCalls (calls1.take k) construct)
      = generateSampleValue (runCalls (calls2.take k) construct) ∧
    (runCalls (calls1.take k) construct).envelope.counter
      = (runCalls (calls2.take k) construct).envelope.counter ∧
    (runCalls (calls1.take k) construct).envelope.phase
      = (runCalls (calls2.take k) construct).envelope.phase ∧
    (runCalls (calls1.take k) construct).envelope.output
      = (runCalls (calls2.take k) construct).envelope.output ∧
    (runCalls (calls1.take k) construct).envelope.holding
      = (runCalls (calls2.take k) construct).envelope.holding ∧
    (runCalls (calls1.take k) construct).envelope.attack
      = (runCalls (calls2.take k) construct).envelope.attack ∧
    (runCalls (calls1.take k) construct).envelope.continueFlag
      = (runCalls (calls2.take k) construct).envelope.continueFlag ∧
    (runCalls (calls1.take k) construct).envelope.alternate
      = (runCalls (calls2.take k) construct).envelope.alternate ∧
    (runCalls (calls1.take k) construct).envelope.period
      = (runCalls (calls2.take k) construct).envelope.period ∧
    (runCalls (calls1.take k) construct).voices = (runCalls (calls2.take k) construct).voices ∧
    (runCalls (calls1.take k) construct).noise = (runCalls (calls2.take k) construct).noise := by
  have hk : List.Forall₂ SameUpToHoldBit (calls1.take k) (calls2.take k) :=
    List.forall₂_take k hc
  have heq := holdEquiv_runCalls _ _ hk construct construct (holdEquiv_refl construct)
  have hl := (holdEquiv_sample _ _ heq).2
  obtain ⟨_, _, h3, h4, h5⟩ := heq
  obtain ⟨f1, f2, _, f4, f5, f6, f7, f8, f9⟩ := holdEquiv_envelope_fields _ _ h5
  refine ⟨?_, f1.symm, f4.symm, f5.symm, f6.symm, f7.symm, f9.symm, f8.symm, f2.symm, h3, h4⟩
  unfold generateSampleValue
  rw [hl]

set_option maxRecDepth 100000 in
theorem hold_bit_has_no_effect_witness :
    List.Forall₂ SameUpToHoldBit
        [Call.write 8 0x10, Call.write 13 0x0C, Call.sample, Call.sample, Call.reset]
        [Call.write 8 0x10, Call.write 13 0x0D, Call.sample, Call.sample, Call.reset] ∧
      (runCalls [Call.write 8 0x10, Call.write 13 0x0C, Call.sample] construct).envelope.hold
        = false ∧
      (runCalls [Call.write 8 0x10, Call.write 13 0x0D, Call.sample] construct).envelope.hold
        = true ∧
      generateSampleValue
          (runCalls ([Call.write 8 0x10, Call.write 13 0x0C, Call.sample, Call.sample,
            Call.reset].take 3) construct)
        = generateSampleValue
          (runCalls ([Call.write 8 0x10, Call.write 13 0x0D, Call.sample, Call.sample,
            Call.reset].take 3) construct) := by
  have hc : List.Forall₂ SameUpToHoldBit
      [Call.write 8 0x10, Call.write 13 0x0C, Call.sample, Call.sample, Call.reset]
      [Call.write 8 0x10, Call.write 13 0x0D, Call.sample, Call.sample, Call.reset] := by
    refine List.Forall₂.cons ?_ (List.Forall₂.cons ?_ (List.Forall₂.cons ?_
      (List.Forall₂.cons ?_ (List.Forall₂.cons ?_ List.Forall₂.nil))))
    · exact ⟨rfl, by decide⟩
    · exact ⟨rfl, by decide⟩
    · exact trivial
    · exact trivial
    · exact trivial
  exact ⟨hc, by decide, by decide, (hold_bit_has_no_effect _ _ hc 3).1⟩

end YM2149
